import Mathlib

/-!
# skynet-go-cluster: wire codec

A shallow embedding of `codec/seri.go` (the length-tagged string codec) and
`codec/request.go` (the request packet codec with multipart reassembly),
followed by theorems about them.

Conventions of the embedding.

* A Go `byte` is a `Nat` below 256, a `uint16` a `Nat` below `2^16`, a `uint32`
  a `Nat` below `2^32`.  Conversions to a machine width are the explicit
  functions `byte`, `uint16`, `uint32`.
* A Go `string` and a Go `[]byte` are both a `List Nat` (`Bytes`).
* A `netpoll.Reader` is the list of bytes that are still unread.  `Len` is the
  length of that list; `ReadByte`, `ReadBinary`, `ReadString` and `Next` fail,
  consuming nothing, when fewer bytes remain than were asked for, and a request
  for `n <= 0` bytes yields no bytes and no error.
* A `netpoll.Writer` is used by `EncodeReq` only to append.  Every packet starts
  with `Malloc(2)` for the length header, so what was written is kept as the
  list of packets in emission order, each with the `uint16` stored in its
  header and the bytes that follow it.
* A Go run-time panic (index or slice out of range) is an outcome of its own.
-/

namespace SkynetCluster

/-! ## Machine integers and byte order -/

/-- A Go `string` or `[]byte`. -/
abbrev Bytes := List Nat

/-- Conversion to `byte` / `uint8`. -/
def byte (n : Nat) : Nat := n % 256

/-- Conversion to `uint16`. -/
def uint16 (n : Nat) : Nat := n % 65536

/-- Conversion to `uint32`. -/
def uint32 (n : Nat) : Nat := n % 4294967296

/-- The bytes stored by `binary.BigEndian.PutUint16`. -/
def PutUint16BE (v : Nat) : Bytes := [byte (v / 256), byte v]

/-- The bytes stored by `binary.LittleEndian.PutUint16` (and appended by `AppendUint16`). -/
def PutUint16LE (v : Nat) : Bytes := [byte v, byte (v / 256)]

/-- The bytes stored by `binary.LittleEndian.PutUint32` (and appended by `AppendUint32`). -/
def PutUint32LE (v : Nat) : Bytes :=
  [byte v, byte (v / 256), byte (v / 65536), byte (v / 16777216)]

/-- The bytes of a `uint32` in big-endian order (what `binary.BigEndian.PutUint32` stores). -/
def PutUint32BE (v : Nat) : Bytes :=
  [byte (v / 16777216), byte (v / 65536), byte (v / 256), byte v]

/-- Go `binary.BigEndian.Uint16`; `none` is the bounds-check panic on a short slice. -/
def Uint16BE : Bytes → Option Nat
  | b0 :: b1 :: _ => some (b1 + b0 * 256)
  | _ => none

/-- Go `binary.LittleEndian.Uint16`; `none` is the bounds-check panic on a short slice. -/
def Uint16LE : Bytes → Option Nat
  | b0 :: b1 :: _ => some (b0 + b1 * 256)
  | _ => none

/-- Go `binary.LittleEndian.Uint32`; `none` is the bounds-check panic on a short slice. -/
def Uint32LE : Bytes → Option Nat
  | b0 :: b1 :: b2 :: b3 :: _ => some (b0 + b1 * 256 + b2 * 65536 + b3 * 16777216)
  | _ => none

/-- Go `binary.BigEndian.Uint32`; `none` is the bounds-check panic on a short slice. -/
def Uint32BE : Bytes → Option Nat
  | b0 :: b1 :: b2 :: b3 :: _ => some (b3 + b2 * 256 + b1 * 65536 + b0 * 16777216)
  | _ => none

/-- Go simple slice expression `a[lo:hi]`; `none` is the run-time panic.  The bound
used is the length.  Go bounds a slice of a slice by its capacity, but wherever
`unpackStringsFromBytes` takes `data[start:end]` it next takes `data[end:]`, which
panics as soon as `end` exceeds the length, so the run panics in exactly the same
cases; its `data[1 : vLen+1]` is guarded by the size check before it; and the slices
of `EncodeReq` stay within the length (`encodeParts_spec`). -/
def slice (a : Bytes) (lo hi : Nat) : Option Bytes :=
  if lo ≤ hi ∧ hi ≤ a.length then some ((a.drop lo).take (hi - lo)) else none

/-- Go simple slice expression `a[lo:]`; `none` is the run-time panic. -/
def sliceFrom (a : Bytes) (lo : Nat) : Option Bytes :=
  if lo ≤ a.length then some (a.drop lo) else none

/-! ## Errors -/

/-- The errors the codec returns, one constructor per error site, carrying the
values the source formats into the message. -/
inductive Err where
  /-- The netpoll reader: "link buffer read byte is empty". -/
  | readByteEmpty
  /-- The netpoll reader: "link buffer read binary[n] not enough" (also `ReadString`, `Next`). -/
  | readNotEnough (n : Nat)
  /-- Source: "nonsupport data invalid stream (type=%d,cookie=%d)". -/
  | nonsupportStream (vType cookie : Nat)
  /-- Source: "nonsupport data unpack (type=%d)". -/
  | nonsupportUnpack (vType : Nat)
  /-- Source: "unpackString datasz=%d,vLen=%d". -/
  | unpackStringSize (datasz vLen : Nat)
  /-- Source: "Invalid cluster message (size=%d)". -/
  | invalidClusterMessage (size : Nat)
  /-- Source: "invalid cluster message size %d (multi req must be 13)". -/
  | invalidMultiReqSize (size : Nat)
  /-- Source: "Invalid cluster multi part message (headersz=%d)". -/
  | invalidMultiPart (headersz : Nat)
  /-- Source: "invalid large req part session=%d". -/
  | invalidLargeReqPartSession (session : Nat)
  /-- Source: "invalid request package size=0". -/
  | invalidPackageSize0
  /-- Source: "nonsupport trace msg". -/
  | nonsupportTrace
  /-- Source: "invalid req package (type=%d)". -/
  | invalidReqType (msgType : Nat)
  /-- Source: "invalid request addr". -/
  | invalidRequestAddr
  deriving DecidableEq, Repr

/-- A Go `(value, error)` result of a read. -/
inductive Res (α : Type) where
  | ok (a : α)
  | error (e : Err)
  deriving DecidableEq, Repr

/-! ## netpoll.Reader -/

/-- The unread bytes of a `netpoll.Reader`. -/
abbrev Reader := Bytes

/-- Reader `ReadByte`. -/
def ReadByte : Reader → Res (Nat × Reader)
  | [] => .error .readByteEmpty
  | b :: rest => .ok (b, rest)

/-- Reader `ReadBinary(n)`; `ReadString(n)` and `Next(n)` behave alike. -/
def ReadBinary (pkg : Reader) (n : Nat) : Res (Bytes × Reader) :=
  if n ≤ 0 then .ok ([], pkg)
  else if pkg.length < n then .error (.readNotEnough n)
  else .ok (pkg.take n, pkg.drop n)

/-- A read whose error the source drops (`p, _ := pkg.ReadBinary(n)`): on error the
slice is nil and nothing is consumed. -/
def ReadBinaryIgn (pkg : Reader) (n : Nat) : Bytes × Reader :=
  match ReadBinary pkg n with
  | .ok r => r
  | .error _ => ([], pkg)

/-! ## seri.go: the string codec -/

/-- Source `unpackString`: one length-tagged string from the reader. -/
def unpackString (pkg : Reader) : Res (Bytes × Reader) :=
  match ReadByte pkg with
  | .error e => .error e
  | .ok (header, pkg) =>
    let vType := header &&& 0x7
    let vLen := header >>> 3
    if vType = 4 then
      ReadBinary pkg vLen
    else if vType = 5 then
      if vLen = 2 ∨ vLen = 4 then
        match ReadBinary pkg vLen with
        | .error e => .error e
        | .ok (bsize, pkg) =>
          -- bsize holds exactly vLen bytes here, so the conversions cannot panic
          let size := if vLen = 2 then (Uint16LE bsize).getD 0 else (Uint32LE bsize).getD 0
          ReadBinary pkg size
      else .error (.nonsupportStream vType vLen)
    else .error (.nonsupportUnpack vType)

/-- Source `combineType` on `uint8`: `t | v<<3`. -/
def combineType (t v : Nat) : Nat := byte (t ||| byte (v <<< 3))

/-- The body of the loop of `packString` for one string `s`, on the bytes written
so far.  For a string of 32 bytes or more the source calls `buffer.Grow` and then
`binary.LittleEndian.AppendUint16/32(buffer.Bytes(), ...)`, whose result it drops:
the buffer keeps its length and the next `WriteString` starts right after the
header byte. -/
def packOne (buffer : Bytes) (s : Bytes) : Bytes :=
  let len := s.length
  if len < 32 then
    let n := combineType 4 (byte len)
    let buffer := buffer ++ [n]
    if len > 0 then buffer ++ s else buffer
  else
    if len < 0x10000 then
      let n := combineType 5 2
      let buffer := buffer ++ [n]
      let _dropped := buffer ++ PutUint16LE (uint16 len)
      buffer ++ s
    else
      let n := combineType 5 4
      let buffer := buffer ++ [n]
      let _dropped := buffer ++ PutUint32LE (uint32 len)
      buffer ++ s

/-- Source `packString(strs ...string)`. -/
def packString (strs : List Bytes) : Bytes :=
  strs.foldl packOne []

/-- Result of `unpackStringsFromBytes`. -/
inductive StrsRet where
  /-- Returned `strs, nil`. -/
  | ok (strs : List Bytes)
  /-- Returned `nil, err`. -/
  | error (e : Err)
  /-- Run-time panic: slice bounds out of range. -/
  | panic
  /-- The model ran out of iterations (never the case, see `unpackStringsFromBytes`). -/
  | fuel
  deriving DecidableEq, Repr

/-- The `for` loop of `unpackStringsFromBytes`, at most `n` iterations. -/
def unpackStringsLoop : Nat → Bytes → List Bytes → StrsRet
  | 0, _, _ => .fuel
  | n + 1, data, strs =>
    let datasz := data.length
    if datasz ≤ 0 then .ok strs
    else
      let header := data.headD 0
      let vType := header &&& 0x7
      let vLen := byte (header >>> 3)
      if datasz < byte (vLen + 1) then .error (.unpackStringSize datasz vLen)
      else if vType = 4 then
        let strLen := vLen
        let start := 1
        let stop := start + strLen + 1
        match slice data start stop, sliceFrom data stop with
        | some s, some data => unpackStringsLoop n data (strs ++ [s])
        | _, _ => .panic
      else if vType = 5 then
        if vLen = 2 ∨ vLen = 4 then
          match slice data 1 (byte (vLen + 1)) with
          | none => .panic
          | some headerLen =>
            let strLen := if vLen = 2 then (Uint16LE headerLen).getD 0
                          else (Uint32LE headerLen).getD 0
            let start := byte (1 + vLen)
            let stop := start + strLen + 1
            match slice data start stop, sliceFrom data stop with
            | some s, some data => unpackStringsLoop n data (strs ++ [s])
            | _, _ => .panic
        else .error (.nonsupportStream vType vLen)
      else .error (.nonsupportUnpack vType)

/-- Source `unpackStringsFromBytes`.  Every iteration that continues drops at least
two bytes, so `len(data) + 1` iterations always suffice. -/
def unpackStringsFromBytes (data : Bytes) : StrsRet :=
  unpackStringsLoop (data.length + 1) data []

/-! ## request.go: the data model -/

/-- Source `Addr`. -/
structure Addr where
  Id : Nat
  Name : Bytes
  deriving DecidableEq, Repr

/-- Source `ReqPack`.  A nil `Message` and an empty one are both `[]`. -/
structure ReqPack where
  Addr : Addr
  Session : Nat
  Cmd : Bytes
  Message : Bytes
  deriving DecidableEq, Repr

/-- The reassembly table `map[uint32]*ReqPack`: the entry of each session, if any. -/
abbrev Table := Nat → Option ReqPack

/-- The table of `make(map[uint32]*codec.ReqPack)`. -/
def Table.empty : Table := fun _ => none

/-- Go `largeReq[session] = req`. -/
def Table.set (t : Table) (session : Nat) (req : ReqPack) : Table :=
  fun k => if k = session then some req else t k

/-- Go `delete(largeReq, session)`. -/
def Table.delete (t : Table) (session : Nat) : Table :=
  fun k => if k = session then none else t k

/-- What a decoding function hands back: the Go pair `(*ReqPack, error)`, or a
run-time panic. -/
inductive Ret where
  /-- Returned `req, err`, either of which may be nil (`none`). -/
  | value (req : Option ReqPack) (err : Option Err)
  /-- Run-time panic (index or slice out of range). -/
  | panic
  deriving DecidableEq, Repr

/-! ## request.go: decoding -/

/-- Source `unpackReqNumber`: a whole packet with a numeric address (after the type byte). -/
def unpackReqNumber (pkg : Reader) : Ret :=
  let len := pkg.length
  if len < 8 then .value none (some (.invalidClusterMessage len))
  else
    match ReadBinary pkg 4 with
    | .error e => .value none (some e)
    | .ok (bLen, pkg) =>
      match Uint32LE bLen with
      | none => .panic
      | some sid =>
        match ReadBinary pkg 4 with
        | .error e => .value none (some e)
        | .ok (bLen, pkg) =>
          match Uint32LE bLen with
          | none => .panic
          | some session =>
            let req : ReqPack :=
              { Addr := { Id := sid, Name := [] }, Session := session, Cmd := [], Message := [] }
            match unpackString pkg with
            | .error e => .value (some req) (some e)
            | .ok (bcmd, pkg) =>
              let req := { req with Cmd := bcmd }
              match unpackString pkg with
              | .error e => .value (some req) (some e)
              | .ok (data, _) => .value (some { req with Message := data }) none

/-- Source `unpackReqStr`: a whole packet with a name address (after the type byte). -/
def unpackReqStr (pkg : Reader) : Ret :=
  let len := pkg.length
  if len < 2 then .value none (some (.invalidClusterMessage len))
  else
    match ReadByte pkg with
    | .error e => .value none (some e)
    | .ok (bLen, pkg) =>
      let namesize := bLen
      if len < namesize + 5 then .value none (some (.invalidClusterMessage len))
      else
        match ReadBinary pkg namesize with
        | .error e => .value none (some e)
        | .ok (sname, pkg) =>
          match ReadBinary pkg 4 with
          | .error e => .value none (some e)
          | .ok (bSession, pkg) =>
            match Uint32BE bSession with
            | none => .panic
            | some session =>
              let req : ReqPack :=
                { Addr := { Id := 0, Name := sname }, Session := session, Cmd := [], Message := [] }
              match unpackString pkg with
              | .error e => .value (some req) (some e)
              | .ok (bcmd, pkg) =>
                let req := { req with Cmd := bcmd }
                match unpackString pkg with
                | .error e => .value (some req) (some e)
                | .ok (data, _) => .value (some { req with Message := data }) none

/-- Source `unpackLargeReqNumber`: the head of a multipart request with a numeric
address.  `make([]byte, 0, msgsize)` fixes a capacity only, which nothing observes. -/
def unpackLargeReqNumber (pkg : Reader) (largeReq : Table) (_push : Bool) : Ret × Table :=
  let len := pkg.length
  if len ≠ 12 then (.value none (some (.invalidMultiReqSize len)), largeReq)
  else
    let (bLen, pkg) := ReadBinaryIgn pkg 4
    match Uint32LE bLen with
    | none => (.panic, largeReq)
    | some sid =>
      let (bLen, pkg) := ReadBinaryIgn pkg 4
      match Uint32LE bLen with
      | none => (.panic, largeReq)
      | some session =>
        let req : ReqPack :=
          { Addr := { Id := sid, Name := [] }, Session := session, Cmd := [], Message := [] }
        let (bSize, _) := ReadBinaryIgn pkg 4
        match Uint32LE bSize with
        | none => (.panic, largeReq)
        | some _msgsize => (.value none none, largeReq.set session req)

/-- Source `unpackLargeReqStr`: the head of a multipart request with a name address. -/
def unpackLargeReqStr (pkg : Reader) (largeReq : Table) (_push : Bool) : Ret × Table :=
  let len := pkg.length
  if len < 2 then (.value none (some (.invalidClusterMessage len)), largeReq)
  else
    match ReadByte pkg with
    | .error e => (.value none (some e), largeReq)
    | .ok (bSize, pkg) =>
      let namesize := bSize
      if len < namesize + 8 then (.value none (some (.invalidClusterMessage len)), largeReq)
      else
        let (sname, pkg) := ReadBinaryIgn pkg namesize
        let (bLen, pkg) := ReadBinaryIgn pkg 4
        match Uint32LE bLen with
        | none => (.panic, largeReq)
        | some session =>
          let req : ReqPack :=
            { Addr := { Id := 0, Name := sname }, Session := session, Cmd := [], Message := [] }
          let (bLen, _) := ReadBinaryIgn pkg 4
          match Uint32LE bLen with
          | none => (.panic, largeReq)
          | some _msgsize => (.value none none, largeReq.set session req)

/-- Source `unpackLargeReqPart`: a body (`lastPart = false`) or tail (`lastPart = true`)
packet.  `req` is a pointer into the table, so the append is seen by the table
entry; on the tail the entry is deleted before the buffer is decoded. -/
def unpackLargeReqPart (pkg : Reader) (largeReq : Table) (lastPart : Bool) : Ret × Table :=
  let sz := pkg.length
  if sz < 4 then (.value none (some (.invalidMultiPart sz)), largeReq)
  else
    let (bLen, pkg) := ReadBinaryIgn pkg 4
    match Uint32LE bLen with
    | none => (.panic, largeReq)
    | some session =>
      match largeReq session with
      | none => (.value none (some (.invalidLargeReqPartSession session)), largeReq)
      | some req =>
        let (p, _) := ReadBinaryIgn pkg (sz - 4)
        let req := { req with Message := req.Message ++ p }
        let largeReq := largeReq.set session req
        if lastPart then
          let largeReq := largeReq.delete session
          match unpackStringsFromBytes req.Message with
          | .error e => (.value (some req) (some e), largeReq)
          | .panic => (.panic, largeReq)
          -- never the case: see `unpackStringsFromBytes_ne_fuel`
          | .fuel => (.panic, largeReq)
          | .ok args =>
            match args with
            | a0 :: a1 :: _ => (.value (some { req with Cmd := a0, Message := a1 }) none, largeReq)
            | _ => (.panic, largeReq)
        else (.value (some req) none, largeReq)

/-- Source `DecodeReq`: one packet (the bytes after the 2-byte length prefix) against
the reassembly table of the connection. -/
def DecodeReq (pkg : Reader) (largeReq : Table) : Ret × Table :=
  let len := pkg.length
  if len = 0 then (.value none (some .invalidPackageSize0), largeReq)
  else
    match ReadByte pkg with
    | .error e => (.value none (some e), largeReq)
    | .ok (msgType, pkg) =>
      if msgType = 0 then (unpackReqNumber pkg, largeReq)
      else if msgType = 1 then unpackLargeReqNumber pkg largeReq false
      else if msgType = 0x41 then unpackLargeReqNumber pkg largeReq true
      else if msgType = 2 then unpackLargeReqPart pkg largeReq false
      else if msgType = 3 then unpackLargeReqPart pkg largeReq true
      else if msgType = 4 then (.value none (some .nonsupportTrace), largeReq)
      else if msgType = 0x80 then (unpackReqStr pkg, largeReq)
      else if msgType = 0x81 then unpackLargeReqStr pkg largeReq false
      else if msgType = 0xc1 then unpackLargeReqStr pkg largeReq true
      else (.value none (some (.invalidReqType msgType)), largeReq)

/-! ## request.go: encoding -/

/-- One packet as written by `EncodeReq`: the `uint16` it stores big-endian in the
2-byte header, and the bytes written after the header. -/
structure Packet where
  declared : Nat
  body : Bytes
  deriving DecidableEq, Repr

/-- The bytes of a packet on the wire. -/
def Packet.wire (p : Packet) : Bytes := PutUint16BE p.declared ++ p.body

/-- Result of `EncodeReq`. -/
inductive EncRet where
  /-- Returned nil; `pkts` is what was written. -/
  | ok (pkts : List Packet)
  /-- Returned an error; `pkts` is what had been written by then. -/
  | error (pkts : List Packet) (e : Err)
  /-- Run-time panic (slice bounds out of range). -/
  | panic
  deriving DecidableEq, Repr

/-- The `for i := 0; i < part; i++` loop of `EncodeReq`, with `n` iterations left and
the loop variables `index` and `sz` (both `uint32`).  `none` is the slice panic. -/
def encodeParts (PartSize session : Nat) (bytes : Bytes) :
    Nat → Nat → Nat → Option (List Packet)
  | 0, _, _ => some []
  | n + 1, index, sz =>
    let s := if sz > PartSize then PartSize else sz
    let bType := if sz > PartSize then 2 else 3
    match slice bytes index (uint32 (index + s)) with
    | none => none
    | some chunk =>
      let pkt : Packet :=
        { declared := uint16 (uint32 (s + 5)), body := [bType] ++ PutUint32LE session ++ chunk }
      -- index = s ; sz = sz - s   (s never exceeds sz)
      match encodeParts PartSize session bytes n s (sz - s) with
      | none => none
      | some rest => some (pkt :: rest)

/-- Source `EncodeReq`.  `PartSize` is a constant of the package that is declared
outside the files at hand; it is compared with and assigned to `uint32` values. -/
def EncodeReq (PartSize : Nat) (msg : ReqPack) : EncRet :=
  let bytes := packString [msg.Cmd, msg.Message]
  let sz := uint32 bytes.length
  let session := msg.Session
  let isPush : Bool := decide (session ≤ 0)
  if msg.Addr.Id = 0 ∧ msg.Addr.Name = [] then .error [] .invalidRequestAddr
  else if sz < PartSize then
    let session4 := PutUint32LE session
    if msg.Addr.Id > 0 then
      .ok [{ declared := uint16 (uint32 (sz + 9)),
             body := [0] ++ PutUint32LE msg.Addr.Id ++ session4 ++ bytes }]
    else
      let namelen := uint32 msg.Addr.Name.length
      .ok [{ declared := uint16 (uint32 (sz + 6 + namelen)),
             body := [0x80, byte namelen] ++ msg.Addr.Name ++ session4 ++ bytes }]
  else
    let tail8 := PutUint32LE session ++ PutUint32LE sz
    let head : Packet :=
      if msg.Addr.Id > 0 then
        { declared := uint16 (uint32 (sz + 13)),
          body := [if isPush then 0x41 else 1] ++ PutUint32LE msg.Addr.Id ++ tail8 }
      else
        let namelen := uint32 msg.Addr.Name.length
        { declared := uint16 (uint32 (namelen + 10)),
          body := [if isPush then 0xc1 else 0x81, byte namelen] ++ msg.Addr.Name ++ tail8 }
    -- integer division by zero is a run-time panic
    if PartSize = 0 then .panic
    else
      let part := uint32 (uint32 (sz - 1) / PartSize + 1)
      match encodeParts PartSize msg.Session bytes part 0 sz with
      | none => .panic
      | some parts => .ok (head :: parts)

/-- Source `handle` (receiver.go): the framer.  It reads the 2-byte big-endian length
and slices that many bytes as one packet; `none` when the bytes at hand do not hold a
whole packet (the source returns the read error and waits for more). -/
def handle (conn : Reader) : Option (Bytes × Reader) :=
  match ReadBinary conn 2 with
  | .error _ => none
  | .ok (bLen, conn) =>
    let pkgsize := (Uint16BE bLen).getD 0
    match ReadBinary conn pkgsize with
    | .error _ => none
    | .ok (pkg, conn) => some (pkg, conn)

/-! ## The encoding rule as the specification words it -/

/-- The string encoding rule in the words of the specification (section 4.1): header
`4 | (L << 3)` then the `L` bytes if `L < 32`; header `0x15`, `L` as little-endian
`uint16`, then the bytes if `L < 65536`; otherwise header `0x25`, `L` as
little-endian `uint32`, then the bytes. -/
def specEncode (s : Bytes) : Bytes :=
  let L := s.length
  if L < 32 then [4 ||| (L <<< 3)] ++ s
  else if L < 65536 then [0x15] ++ PutUint16LE L ++ s
  else [0x25] ++ PutUint32LE L ++ s

/-! ## Concrete requests used in the evaluations below -/

/-- The request `{Addr{Id: 7}, Session: 42, Cmd: "ping", Message: "hi"}`. -/
def pingReq : ReqPack :=
  { Addr := { Id := 7, Name := [] }, Session := 42,
    Cmd := [0x70, 0x69, 0x6e, 0x67], Message := [0x68, 0x69] }

/-- The request `{Addr{Name: "db"}, Session: 1, Cmd: "get", Message: "k"}`. -/
def dbReq : ReqPack :=
  { Addr := { Id := 0, Name := [0x64, 0x62] }, Session := 1,
    Cmd := [0x67, 0x65, 0x74], Message := [0x6b] }

/-- The request `{Addr{Id: 7}, Session: 42, Cmd: 32 times "a", Message: ""}`. -/
def longCmdReq : ReqPack :=
  { Addr := { Id := 7, Name := [] }, Session := 42,
    Cmd := List.replicate 32 0x61, Message := [] }

/-- The request `{Addr{Id: 7}, Session: 42, Cmd: "ping", Message: "hello"}`, whose
packed payload has 11 bytes. -/
def helloReq : ReqPack :=
  { Addr := { Id := 7, Name := [] }, Session := 42,
    Cmd := [0x70, 0x69, 0x6e, 0x67], Message := [0x68, 0x65, 0x6c, 0x6c, 0x6f] }

/-- The chunk of a part packet: what follows the tag and the 4 session bytes. -/
def partChunk (p : Packet) : Bytes := p.body.drop 5

/-! ## A decoder fed with a sequence of packets -/

/-- The reassembly table after `DecodeReq` has been called on each packet in turn
(the loop of `RecvAgent.Start` over `agent.Recv`), starting from `tbl`. -/
def feed (tbl : Table) : List Reader → Table
  | [] => tbl
  | pkg :: rest => feed (DecodeReq pkg tbl).2 rest

/-- Every entry of the table has `Id = 0` or an empty `Name`. -/
def Table.Exclusive (tbl : Table) : Prop :=
  ∀ (k : Nat) (r : ReqPack), tbl k = some r → r.Addr.Id = 0 ∨ r.Addr.Name = []

/-! ## sender.go: sessions and waiters -/

/-- Modelled from the spec: the response packet `{ session, ok, message }` of
section 3.  Its declaration (`codec.RespPack`) is in a file of the package that is
not at hand; `sender.go` builds it from exactly these three fields. -/
structure RespPack where
  Session : Nat
  Ok : Bool
  Message : Bytes
  deriving DecidableEq, Repr

/-- Source `SenderAgent`, the two fields that carry the session state.  `ReqSessions`
is the map `session -> *Request`; a `Request` is its channel `RespCh`, and channels
are numbered in the order in which `Call` makes them. -/
structure SenderAgent where
  IncSession : Nat
  ReqSessions : List (Nat × Nat)
  deriving DecidableEq, Repr

/-- Source `NewSenderAgent`: `IncSession: 1` and an empty `ReqSessions`. -/
def NewSenderAgent : SenderAgent := { IncSession := 1, ReqSessions := [] }

/-- Source `GenSession`: returns `IncSession` and stores `session + 1` (`uint32`). -/
def GenSession (agent : SenderAgent) : Nat × SenderAgent :=
  let session := agent.IncSession
  (session, { agent with IncSession := uint32 (session + 1) })

/-- The sessions returned by `n` successive calls of `GenSession`. -/
def genSessions : Nat → SenderAgent → List Nat
  | 0, _ => []
  | n + 1, agent => (GenSession agent).1 :: genSessions n (GenSession agent).2

/-- Go map assignment `m[k] = v`. -/
def mapSet (m : List (Nat × Nat)) (k v : Nat) : List (Nat × Nat) :=
  if m.any (fun e => e.1 == k) then m.map (fun e => if e.1 = k then (k, v) else e)
  else m ++ [(k, v)]

/-- A sender agent together with its callers: the agent, the number of `RespCh`
channels made so far, and the channels on which a caller is blocked in the `select`
of `Call`, waiting for its response. -/
structure SenderState where
  agent : SenderAgent
  chans : Nat
  receivers : List Nat
  deriving DecidableEq, Repr

/-- The state right after `NewSenderAgent`. -/
def SenderState.start : SenderState :=
  { agent := NewSenderAgent, chans := 0, receivers := [] }

/-- Source `Call`, up to its `select`: a fresh session, a fresh channel registered
under it in `ReqSessions`, then `PostRequest` (`EncodeReq`).  When that fails the
caller returns the error at once; otherwise it blocks on its channel. -/
def Call (PartSize : Nat) (st : SenderState) (service cmd args : Bytes) : SenderState :=
  let (session, agent) := GenSession st.agent
  let pack : ReqPack :=
    { Addr := { Id := 0, Name := service }, Session := session, Cmd := cmd, Message := args }
  let ch := st.chans
  let agent := { agent with ReqSessions := mapSet agent.ReqSessions session ch }
  match EncodeReq PartSize pack with
  | .ok _ => { agent := agent, chans := ch + 1, receivers := st.receivers ++ [ch] }
  | _ => { agent := agent, chans := ch + 1, receivers := st.receivers }

/-- The `ctx.Done()` arm of the `select` of `Call`: the caller on channel `ch` gives up. -/
def onTimeout (st : SenderState) (ch : Nat) : SenderState :=
  { st with receivers := st.receivers.erase ch }

/-- The `agent.Recv` arm of `WaitResponse` for a decoded response `msg`: when a
request is registered under `msg.Session` the response is sent on its channel.  The
channel is unbuffered: the send hands `msg` to the caller blocked on it (who then
returns), and with no caller there it blocks for good (second component `false`). -/
def onResponse (st : SenderState) (msg : RespPack) : SenderState × Bool :=
  match st.agent.ReqSessions.find? (fun e => e.1 == msg.Session) with
  | none => (st, true)
  | some (_, ch) =>
    if ch ∈ st.receivers then ({ st with receivers := st.receivers.erase ch }, true)
    else (st, false)

/-- The response built by the deferred loop of `WaitResponse` for `session`. -/
def socketClose (session : Nat) : RespPack :=
  { Session := session, Ok := false,
    Message := [0x73, 0x6f, 0x63, 0x6b, 0x65, 0x74, 0x20, 0x63, 0x6c, 0x6f, 0x73, 0x65] }

/-- What a run of the deferred loop achieves: the responses received by callers, in
order, and the session at whose send the loop blocks for good, if there is one. -/
structure CloseRun where
  delivered : List RespPack
  blockedOn : Option Nat
  deriving DecidableEq, Repr

/-- The deferred loop of `WaitResponse`, `for session, req := range agent.ReqSessions
{ req.RespCh <- resp }`, visiting the entries in the order `entries` (Go leaves the
order of `range` over a map open) with callers blocked on `receivers`. -/
def closeLoop : List (Nat × Nat) → List Nat → CloseRun
  | [], _ => { delivered := [], blockedOn := none }
  | (session, ch) :: rest, receivers =>
    if ch ∈ receivers then
      let r := closeLoop rest (receivers.erase ch)
      { r with delivered := socketClose session :: r.delivered }
    else { delivered := [], blockedOn := some session }

/-- The state in which one call on a fresh agent has been answered and a second one
is waiting: `Call` (session 1), the response for session 1, `Call` (session 2). -/
def answeredThenWaiting : SenderState :=
  Call 100
    (onResponse (Call 100 SenderState.start [0x64, 0x62] [0x67, 0x65, 0x74] [0x6b])
      { Session := 1, Ok := true, Message := [] }).1
    [0x64, 0x62] [0x67, 0x65, 0x74] [0x6b]

/-! ## Byte order lemmas -/

theorem Uint16LE_PutUint16LE (v : Nat) (r : Bytes) (h : v < 65536) :
    Uint16LE (PutUint16LE v ++ r) = some v := by
  simp only [PutUint16LE, byte, Uint16LE, List.cons_append, List.nil_append, Option.some.injEq]
  omega

theorem Uint32LE_PutUint32LE (v : Nat) (r : Bytes) (h : v < 4294967296) :
    Uint32LE (PutUint32LE v ++ r) = some v := by
  simp only [PutUint32LE, byte, Uint32LE, List.cons_append, List.nil_append, Option.some.injEq]
  omega

/-! ## The streaming string decoder -/

theorem ReadBinary_append (s r : Bytes) : ReadBinary (s ++ r) s.length = .ok (s, r) := by
  unfold ReadBinary
  by_cases h : s.length ≤ 0
  · have hs : s = [] := List.length_eq_zero.mp (Nat.le_zero.mp h)
    subst hs
    simp
  · simp [h]

theorem header_short (L : Nat) (h : L < 32) :
    (4 ||| (L <<< 3)) &&& 0x7 = 4 ∧ (4 ||| (L <<< 3)) >>> 3 = L := by
  interval_cases L <;> decide

/-- C10: the streaming decoder `unpackString` inverts the encoding rule of the
specification: on a reader holding `specEncode s` followed by any bytes `r` it returns
`s` without error and leaves exactly `r` unread, for every `s` shorter than `2^32`. -/
theorem C10_unpackString_specEncode (s r : Bytes) (hL : s.length < 4294967296) :
    unpackString (specEncode s ++ r) = .ok (s, r) := by
  unfold specEncode
  by_cases h32 : s.length < 32
  · obtain ⟨h1, h2⟩ := header_short s.length h32
    simp only [h32, if_true, List.cons_append, List.nil_append, unpackString, ReadByte, h1, h2]
    exact ReadBinary_append s r
  · by_cases h16 : s.length < 65536
    · have hh : (PutUint16LE s.length ++ (s ++ r)) =
          (PutUint16LE s.length) ++ (s ++ r) := rfl
      have hread : ReadBinary (PutUint16LE s.length ++ (s ++ r)) 2
          = .ok (PutUint16LE s.length, s ++ r) := by
        have := ReadBinary_append (PutUint16LE s.length) (s ++ r)
        simpa [PutUint16LE] using this
      have hle : Uint16LE (PutUint16LE s.length) = some s.length := by
        simpa using Uint16LE_PutUint16LE s.length [] h16
      simp only [h32, h16, if_true, if_false, List.cons_append, List.nil_append, unpackString,
        ReadByte, List.append_assoc]
      have e1 : (21 : Nat) &&& 7 = 5 := by decide
      have e2 : (21 : Nat) >>> 3 = 2 := by decide
      simp only [e1, e2, hread, hle]
      simp only [Option.getD_some]
      simpa using ReadBinary_append s r
    · have hread : ReadBinary (PutUint32LE s.length ++ (s ++ r)) 4
          = .ok (PutUint32LE s.length, s ++ r) := by
        have := ReadBinary_append (PutUint32LE s.length) (s ++ r)
        simpa [PutUint32LE] using this
      have hle : Uint32LE (PutUint32LE s.length) = some s.length := by
        simpa using Uint32LE_PutUint32LE s.length [] hL
      simp only [h32, h16, if_true, if_false, List.cons_append, List.nil_append, unpackString,
        ReadByte, List.append_assoc]
      have e1 : (37 : Nat) &&& 7 = 5 := by decide
      have e2 : (37 : Nat) >>> 3 = 4 := by decide
      simp only [e1, e2, hread, hle]
      simp only [Option.getD_some]
      simpa using ReadBinary_append s r

/-- Witness of C10: a string of 40 bytes (the `uint16` length form) followed by one
more byte. -/
theorem C10_unpackString_specEncode_witness :
    (List.replicate 40 7).length < 4294967296 ∧
    unpackString (specEncode (List.replicate 40 7) ++ [9]) = .ok (List.replicate 40 7, [9]) :=
  ⟨by decide, C10_unpackString_specEncode (List.replicate 40 7) [9] (by decide)⟩

/-! ## packString on long strings -/

theorem packString_single_mid (s : Bytes) (h1 : 32 ≤ s.length) (h2 : s.length < 65536) :
    packString [s] = 0x15 :: s := by
  have h : ¬ s.length < 32 := by omega
  simp [packString, packOne, h, h2, combineType, byte]

theorem packString_single_big (s : Bytes) (h1 : 65536 ≤ s.length) :
    packString [s] = 0x25 :: s := by
  have h : ¬ s.length < 32 := by omega
  have h2 : ¬ s.length < 65536 := by omega
  simp [packString, packOne, h, h2, combineType, byte]

/-- C9 (evaluation at the failing inputs): for a string of 32 bytes `packString`
yields the header `0x15` directly followed by the 32 bytes, 33 bytes in all, which is
not the header, the length as little-endian `uint16` and the bytes; for a string of
65536 bytes it yields the header `0x25` directly followed by the bytes, 65537 bytes
in all.  The length field is missing in both forms. -/
theorem C9_packString_long_omits_length :
    packString [List.replicate 32 0x61] = 0x15 :: List.replicate 32 0x61 ∧
    (packString [List.replicate 32 0x61]).length = 33 ∧
    packString [List.replicate 32 0x61]
      ≠ [0x15] ++ PutUint16LE 32 ++ List.replicate 32 0x61 ∧
    packString [List.replicate 65536 0] = 0x25 :: List.replicate 65536 0 ∧
    (packString [List.replicate 65536 0]).length = 65537 := by
  have hmid := packString_single_mid (List.replicate 32 0x61) (by simp) (by simp)
  have hbig := packString_single_big (List.replicate 65536 0)
    (by rw [List.length_replicate])
  refine ⟨hmid, ?_, ?_, hbig, ?_⟩
  · rw [hmid]; simp
  · rw [hmid]; decide
  · rw [hbig, List.length_cons, List.length_replicate]

/-! ## Single-frame requests -/

/-- C1 (evaluation at the failing inputs), with `PartSize = 100`.  The name-addressed
request `dbReq` (session 1) is written as one `0x80` packet whose session bytes are
`01 00 00 00`, and `DecodeReq` on that packet returns session 16777216.  The request
`longCmdReq` (a 32-byte command) is written as one `0x00` packet whose command has
header `0x15` and no length field, and `DecodeReq` on it returns an error together
with a request that has neither the command nor the message. -/
theorem C1_single_frame_round_trip_fails :
    (EncodeReq 100 dbReq
        = .ok [{ declared := 14,
                 body := [0x80, 2, 0x64, 0x62, 1, 0, 0, 0, 0x1c, 0x67, 0x65, 0x74, 0x0c, 0x6b] }] ∧
      (DecodeReq [0x80, 2, 0x64, 0x62, 1, 0, 0, 0, 0x1c, 0x67, 0x65, 0x74, 0x0c, 0x6b]
          Table.empty).1
        = .value (some { dbReq with Session := 16777216 }) none) ∧
    (EncodeReq 100 longCmdReq
        = .ok [{ declared := 43,
                 body := [0, 7, 0, 0, 0, 42, 0, 0, 0, 0x15] ++ List.replicate 32 0x61 ++ [4] }] ∧
      (DecodeReq ([0, 7, 0, 0, 0, 42, 0, 0, 0, 0x15] ++ List.replicate 32 0x61 ++ [4])
          Table.empty).1
        = .value (some { longCmdReq with Cmd := [] }) (some (.readNotEnough 24929))) := by
  refine ⟨⟨?_, ?_⟩, ⟨?_, ?_⟩⟩ <;> decide

/-- C7 (evaluation at the failing input), with `PartSize = 100`.  For the
name-addressed request `dbReq` (name "db", session 1) the 4 bytes that `EncodeReq`
writes directly after the name are `01 00 00 00`, the session in little-endian order
and not the big-endian `00 00 00 01`; `unpackReqStr` reads those 4 bytes big-endian,
as 16777216. -/
theorem C7_session_written_little_endian :
    ∃ pkt, EncodeReq 100 dbReq = .ok [pkt] ∧
      (pkt.body.drop (2 + dbReq.Addr.Name.length)).take 4 = [1, 0, 0, 0] ∧
      PutUint32LE dbReq.Session = [1, 0, 0, 0] ∧
      PutUint32BE dbReq.Session = [0, 0, 0, 1] ∧
      Uint32BE ((pkt.body.drop (2 + dbReq.Addr.Name.length)).take 4) = some 16777216 ∧
      unpackReqStr (pkt.body.drop 1)
        = .value (some { dbReq with Session := 16777216 }) none := by
  refine ⟨{ declared := 14,
            body := [0x80, 2, 0x64, 0x62, 1, 0, 0, 0, 0x1c, 0x67, 0x65, 0x74, 0x0c, 0x6b] },
    ?_, ?_, ?_, ?_, ?_, ?_⟩ <;> decide

/-! ## Multipart requests: evaluations -/

/-- C4 (evaluation at the failing input), with `PartSize = 4`.  For `pingReq`, whose
packed payload has 8 bytes, `EncodeReq` writes a numeric-address head packet of 13
bytes whose length header declares `sz + 13 = 21`. -/
theorem C4_numeric_head_declares_sz_plus_13 :
    ∃ head parts, EncodeReq 4 pingReq = .ok (head :: parts) ∧
      head.body = [1, 7, 0, 0, 0, 42, 0, 0, 0, 8, 0, 0, 0] ∧
      head.body.length = 13 ∧ head.declared = 21 ∧
      head.wire = [0, 21, 1, 7, 0, 0, 0, 42, 0, 0, 0, 8, 0, 0, 0] := by
  refine ⟨{ declared := 21, body := [1, 7, 0, 0, 0, 42, 0, 0, 0, 8, 0, 0, 0] },
    [{ declared := 9, body := [2, 42, 0, 0, 0, 0x24, 0x70, 0x69, 0x6e] },
     { declared := 9, body := [3, 42, 0, 0, 0, 0x67, 0x14, 0x68, 0x69] }],
    ?_, ?_, ?_, ?_, ?_⟩ <;> decide

/-- C2 (evaluation at the failing input), with `PartSize = 4`.  `EncodeReq` writes
`pingReq` as a head, one body and one tail packet.  Fed in that order to `DecodeReq`
from the empty table, the tail packet returns an error, and the request handed back
with it has an empty command and the whole reassembled buffer as its message. -/
theorem C2_multipart_round_trip_fails :
    EncodeReq 4 pingReq
      = .ok [{ declared := 21, body := [1, 7, 0, 0, 0, 42, 0, 0, 0, 8, 0, 0, 0] },
             { declared := 9, body := [2, 42, 0, 0, 0, 0x24, 0x70, 0x69, 0x6e] },
             { declared := 9, body := [3, 42, 0, 0, 0, 0x67, 0x14, 0x68, 0x69] }] ∧
    (DecodeReq [3, 42, 0, 0, 0, 0x67, 0x14, 0x68, 0x69]
        (DecodeReq [2, 42, 0, 0, 0, 0x24, 0x70, 0x69, 0x6e]
          (DecodeReq [1, 7, 0, 0, 0, 42, 0, 0, 0, 8, 0, 0, 0] Table.empty).2).2).1
      = .value
          (some { pingReq with Cmd := [],
                               Message := [0x24, 0x70, 0x69, 0x6e, 0x67, 0x14, 0x68, 0x69] })
          (some (.unpackStringSize 2 13)) := by
  refine ⟨?_, ?_⟩ <;> decide

/-- C3 (evaluation at the failing inputs).  The command "ping" and the payload "hi"
encode to `24 70 69 6e 67 14 68 69`.  With `k = 1` (head, one body, tail for session
42, from the empty table) the head returns no request and no error, but the body
packet returns a request (the entry under reassembly) with no error, and the tail
returns an error.  With `k = 0` (head, then a tail carrying all 8 bytes) the tail
returns an error as well.  With the command "ping" and an empty payload (`24 70 69 6e
67 04`) the tail ends in a run-time panic. -/
theorem C3_reassembly_body_returns_request_tail_fails :
    (DecodeReq [1, 7, 0, 0, 0, 42, 0, 0, 0, 8, 0, 0, 0] Table.empty).1 = .value none none ∧
    (DecodeReq [2, 42, 0, 0, 0, 0x24, 0x70, 0x69, 0x6e]
        (DecodeReq [1, 7, 0, 0, 0, 42, 0, 0, 0, 8, 0, 0, 0] Table.empty).2).1
      = .value (some { pingReq with Cmd := [], Message := [0x24, 0x70, 0x69, 0x6e] }) none ∧
    (DecodeReq [3, 42, 0, 0, 0, 0x67, 0x14, 0x68, 0x69]
        (DecodeReq [2, 42, 0, 0, 0, 0x24, 0x70, 0x69, 0x6e]
          (DecodeReq [1, 7, 0, 0, 0, 42, 0, 0, 0, 8, 0, 0, 0] Table.empty).2).2).1
      = .value
          (some { pingReq with Cmd := [],
                               Message := [0x24, 0x70, 0x69, 0x6e, 0x67, 0x14, 0x68, 0x69] })
          (some (.unpackStringSize 2 13)) ∧
    (DecodeReq [3, 42, 0, 0, 0, 0x24, 0x70, 0x69, 0x6e, 0x67, 0x14, 0x68, 0x69]
        (DecodeReq [1, 7, 0, 0, 0, 42, 0, 0, 0, 8, 0, 0, 0] Table.empty).2).1
      = .value
          (some { pingReq with Cmd := [],
                               Message := [0x24, 0x70, 0x69, 0x6e, 0x67, 0x14, 0x68, 0x69] })
          (some (.unpackStringSize 2 13)) ∧
    (DecodeReq [3, 42, 0, 0, 0, 0x24, 0x70, 0x69, 0x6e, 0x67, 0x04]
        (DecodeReq [1, 7, 0, 0, 0, 42, 0, 0, 0, 6, 0, 0, 0] Table.empty).2).1
      = .panic := by
  refine ⟨?_, ?_, ?_, ?_, ?_⟩ <;> decide

/-! ## Unknown sessions and invalid addresses -/

theorem ReadBinaryIgn_four (b0 b1 b2 b3 : Nat) (rest : Bytes) :
    ReadBinaryIgn (b0 :: b1 :: b2 :: b3 :: rest) 4 = ([b0, b1, b2, b3], rest) := by
  have hlen : ¬ (rest.length + 1 + 1 + 1 + 1 < 4) := by omega
  simp [ReadBinaryIgn, ReadBinary, hlen]

/-- C5: for every table and every packet with tag `0x02` or `0x03` whose 4-byte
little-endian session is not a key of the table, `DecodeReq` returns an error with no
request and hands the table back exactly as it was. -/
theorem C5_unknown_session_rejected (tag b0 b1 b2 b3 : Nat) (chunk : Bytes) (tbl : Table)
    (htag : tag = 2 ∨ tag = 3)
    (hkey : tbl (b0 + b1 * 256 + b2 * 65536 + b3 * 16777216) = none) :
    Uint32LE [b0, b1, b2, b3] = some (b0 + b1 * 256 + b2 * 65536 + b3 * 16777216) ∧
    DecodeReq (tag :: b0 :: b1 :: b2 :: b3 :: chunk) tbl
      = (.value none
          (some (.invalidLargeReqPartSession (b0 + b1 * 256 + b2 * 65536 + b3 * 16777216))),
         tbl) := by
  refine ⟨rfl, ?_⟩
  have hlen : ¬ (chunk.length + 1 + 1 + 1 + 1 < 4) := by omega
  rcases htag with h | h <;> subst h <;>
    simp [DecodeReq, ReadByte, unpackLargeReqPart, ReadBinaryIgn_four, Uint32LE, hkey, hlen]

/-- Witness of C5: the tail packet `03 | session = 99 | "xx"` on the empty table. -/
theorem C5_unknown_session_rejected_witness :
    Uint32LE [99, 0, 0, 0] = some (99 + 0 * 256 + 0 * 65536 + 0 * 16777216) ∧
    DecodeReq (3 :: 99 :: 0 :: 0 :: 0 :: [0x78, 0x78]) Table.empty
      = (.value none
          (some (.invalidLargeReqPartSession (99 + 0 * 256 + 0 * 65536 + 0 * 16777216))),
         Table.empty) :=
  C5_unknown_session_rejected 3 99 0 0 0 [0x78, 0x78] Table.empty (Or.inr rfl) rfl

/-! ## The loop over the parts -/

theorem slice_ok (a : Bytes) (lo n : Nat) (h : lo + n ≤ a.length) :
    slice a lo (lo + n) = some ((a.drop lo).take n) ∧ ((a.drop lo).take n).length = n := by
  constructor
  · unfold slice
    have h1 : lo ≤ lo + n ∧ lo + n ≤ a.length := ⟨by omega, h⟩
    simp [h1]
  · simp only [List.length_take, List.length_drop]
    omega

/-- The loop of `EncodeReq` never slices out of range when `index + sz` stays within
the payload, and its `i`-th packet is a part packet for the session with a chunk of
`min (sz - i * PartSize) PartSize` bytes, tagged 2 while more than `PartSize` bytes
remain and 3 otherwise. -/
theorem encodeParts_spec (P session : Nat) (bytes : Bytes) :
    ∀ (n index sz : Nat), index + sz ≤ bytes.length → index + sz < 4294967296 →
    ∃ parts, encodeParts P session bytes n index sz = some parts ∧ parts.length = n ∧
      ∀ (i : Nat) (p : Packet), parts[i]? = some p →
        ∃ chunk : Bytes, chunk.length = min (sz - i * P) P ∧
          p = { declared := uint16 (uint32 (min (sz - i * P) P + 5)),
                body := [if sz - i * P > P then 2 else 3] ++ PutUint32LE session ++ chunk } := by
  intro n
  induction n with
  | zero =>
    intro index sz _ _
    exact ⟨[], rfl, rfl, by intro i p h; simp at h⟩
  | succ n ih =>
    intro index sz h1 h2
    have hs : (if sz > P then P else sz) = min sz P := by
      split <;> omega
    obtain ⟨rest, hrest, hlen, hall⟩ := ih (min sz P) (sz - min sz P) (by omega) (by omega)
    have hu : uint32 (index + min sz P) = index + min sz P := by
      unfold uint32; omega
    obtain ⟨hsl, hcl⟩ := slice_ok bytes index (min sz P) (by omega)
    refine ⟨{ declared := uint16 (uint32 (min sz P + 5)),
              body := [if sz > P then 2 else 3] ++ PutUint32LE session
                ++ (bytes.drop index).take (min sz P) } :: rest, ?_, ?_, ?_⟩
    · simp only [encodeParts, hs, hu, hsl, hrest]
    · simp [hlen]
    · intro i p hp
      cases i with
      | zero =>
        simp only [List.getElem?_cons_zero, Option.some.injEq] at hp
        refine ⟨(bytes.drop index).take (min sz P), ?_, ?_⟩
        · simpa using hcl
        · rw [← hp]; simp
      | succ i =>
        simp only [List.getElem?_cons_succ] at hp
        obtain ⟨chunk, hc1, hc2⟩ := hall i p hp
        have harith : sz - min sz P - i * P = sz - (i + 1) * P := by
          rw [Nat.succ_mul]
          rcases Nat.lt_or_ge P sz with h | h
          · rw [Nat.min_eq_right (Nat.le_of_lt h)]; omega
          · rw [Nat.min_eq_left h]; omega
        rw [harith] at hc1 hc2
        exact ⟨chunk, hc1, hc2⟩

/-- C6: `EncodeReq` returns an error if and only if the address has `Id = 0` and an
empty `Name`; in that case nothing has been written, and for every other address it
returns no error (and does not panic). -/
theorem C6_invalid_address_iff (PartSize : Nat) (msg : ReqPack) (hP : 0 < PartSize) :
    ((∃ pkts e, EncodeReq PartSize msg = .error pkts e)
        ↔ (msg.Addr.Id = 0 ∧ msg.Addr.Name = [])) ∧
    (msg.Addr.Id = 0 ∧ msg.Addr.Name = []
        → EncodeReq PartSize msg = .error [] .invalidRequestAddr) ∧
    (¬ (msg.Addr.Id = 0 ∧ msg.Addr.Name = []) → ∃ pkts, EncodeReq PartSize msg = .ok pkts) := by
  have hbad : msg.Addr.Id = 0 ∧ msg.Addr.Name = []
      → EncodeReq PartSize msg = .error [] .invalidRequestAddr := by
    intro h
    simp [EncodeReq, h]
  have hgood : ¬ (msg.Addr.Id = 0 ∧ msg.Addr.Name = [])
      → ∃ pkts, EncodeReq PartSize msg = .ok pkts := by
    intro h
    have hP0 : PartSize ≠ 0 := by omega
    have hle : uint32 (packString [msg.Cmd, msg.Message]).length
        ≤ (packString [msg.Cmd, msg.Message]).length := Nat.mod_le _ _
    have hlt : uint32 (packString [msg.Cmd, msg.Message]).length < 4294967296 :=
      Nat.mod_lt _ (by norm_num)
    obtain ⟨parts, hparts, -, -⟩ := encodeParts_spec PartSize msg.Session
      (packString [msg.Cmd, msg.Message])
      (uint32 (uint32 (uint32 (packString [msg.Cmd, msg.Message]).length - 1) / PartSize + 1))
      0 (uint32 (packString [msg.Cmd, msg.Message]).length) (by omega) (by omega)
    unfold EncodeReq
    simp only [h, if_false]
    by_cases hsz : uint32 (packString [msg.Cmd, msg.Message]).length < PartSize
    · simp only [hsz, if_true]
      split <;> exact ⟨_, rfl⟩
    · simp only [hsz, if_false, hP0, hparts]
      exact ⟨_, rfl⟩
  refine ⟨⟨?_, fun h => ⟨_, _, hbad h⟩⟩, hbad, hgood⟩
  rintro ⟨pkts, e, he⟩
  by_contra hne
  obtain ⟨pkts2, hok⟩ := hgood hne
  rw [hok] at he
  cases he

/-- Witness of C6: with `PartSize = 100`, the all-zero address is refused with nothing
written and `pingReq` (address 7) is encoded without error. -/
theorem C6_invalid_address_iff_witness :
    0 < 100 ∧
    EncodeReq 100 { pingReq with Addr := { Id := 0, Name := [] } }
      = .error [] .invalidRequestAddr ∧
    ∃ pkts, EncodeReq 100 pingReq = .ok pkts :=
  ⟨by decide,
   (C6_invalid_address_iff 100 { pingReq with Addr := { Id := 0, Name := [] } }
      (by decide)).2.1 ⟨rfl, rfl⟩,
   (C6_invalid_address_iff 100 pingReq (by decide)).2.2 (by decide)⟩

/-! ## Shape of a multipart sequence -/

theorem parts_count (sz P : Nat) (hP : 0 < P) (hsz : P ≤ sz) :
    (sz - 1) / P + 1 = (sz + P - 1) / P := by
  have h : sz + P - 1 = (sz - 1) + P := by omega
  rw [h, Nat.add_div_right _ hP]

theorem parts_tag (sz P i : Nat) (hP : 0 < P) (hsz : P ≤ sz) (hi : i < (sz - 1) / P + 1) :
    (sz - i * P > P ↔ ¬ i + 1 = (sz - 1) / P + 1) := by
  have hq1 : (sz - 1) / P * P ≤ sz - 1 := Nat.div_mul_le_self _ _
  have hq2 : sz - 1 < ((sz - 1) / P + 1) * P := by
    have := Nat.lt_succ_self ((sz - 1) / P)
    exact (Nat.div_lt_iff_lt_mul hP).mp this
  rw [Nat.succ_mul] at hq2
  constructor
  · intro h heq
    have hi2 : i = (sz - 1) / P := by omega
    rw [hi2] at h
    omega
  · intro hne
    have hi2 : i + 1 ≤ (sz - 1) / P := by omega
    have hmul : (i + 1) * P ≤ (sz - 1) / P * P := Nat.mul_le_mul_right P hi2
    rw [Nat.succ_mul] at hmul
    omega

/-- C8: for `PartSize > 0` and a request with a valid address whose packed payload has
`sz >= PartSize` bytes (`sz` below `2^32`), `EncodeReq` writes one head packet followed
by exactly `ceil(sz / PartSize)` part packets.  The head is the tag (`0x01` / `0x41`
for a numeric address with session non-zero / zero, `0x81` / `0xC1` for a name
address), the address field, the session and then `sz`, both as little-endian
`uint32`.  Every part is a tag, the session of the request as little-endian `uint32`
and a chunk of at most `PartSize` bytes; the tag is `0x03` on the last part and `0x02`
on every earlier one. -/
theorem C8_multipart_shape (PartSize : Nat) (msg : ReqPack)
    (hP : 0 < PartSize)
    (hvalid : ¬ (msg.Addr.Id = 0 ∧ msg.Addr.Name = []))
    (h32 : (packString [msg.Cmd, msg.Message]).length < 4294967296)
    (hsz : PartSize ≤ (packString [msg.Cmd, msg.Message]).length) :
    ∃ head parts,
      EncodeReq PartSize msg = .ok (head :: parts) ∧
      parts.length = ((packString [msg.Cmd, msg.Message]).length + PartSize - 1) / PartSize ∧
      head.body =
        (if msg.Addr.Id ≠ 0 then
           [if msg.Session ≠ 0 then 0x01 else 0x41] ++ PutUint32LE msg.Addr.Id
         else
           [if msg.Session ≠ 0 then 0x81 else 0xc1, byte (uint32 msg.Addr.Name.length)]
             ++ msg.Addr.Name)
        ++ PutUint32LE msg.Session
        ++ PutUint32LE (packString [msg.Cmd, msg.Message]).length ∧
      ∀ (i : Nat) (p : Packet), parts[i]? = some p →
        ∃ chunk : Bytes, chunk.length ≤ PartSize ∧
          p.body = [if i + 1 = parts.length then 3 else 2] ++ PutUint32LE msg.Session ++ chunk := by
  generalize hb : packString [msg.Cmd, msg.Message] = bytes at h32 hsz
  have hP0 : PartSize ≠ 0 := by omega
  have hu : uint32 bytes.length = bytes.length := Nat.mod_eq_of_lt h32
  have hu1 : uint32 (bytes.length - 1) = bytes.length - 1 := Nat.mod_eq_of_lt (by omega)
  have hdiv : (bytes.length - 1) / PartSize ≤ bytes.length - 1 := Nat.div_le_self _ _
  have hu2 : uint32 ((bytes.length - 1) / PartSize + 1) = (bytes.length - 1) / PartSize + 1 :=
    Nat.mod_eq_of_lt (by omega)
  have hnlt : ¬ bytes.length < PartSize := by omega
  obtain ⟨parts, hparts, hlen, hall⟩ := encodeParts_spec PartSize msg.Session bytes
    ((bytes.length - 1) / PartSize + 1) 0 bytes.length (by omega) (by omega)
  refine ⟨(if msg.Addr.Id > 0 then
      { declared := uint16 (uint32 (bytes.length + 13)),
        body := [if decide (msg.Session ≤ 0) = true then 0x41 else 1] ++ PutUint32LE msg.Addr.Id
          ++ (PutUint32LE msg.Session ++ PutUint32LE bytes.length) }
    else
      { declared := uint16 (uint32 (uint32 msg.Addr.Name.length + 10)),
        body := [if decide (msg.Session ≤ 0) = true then 0xc1 else 0x81,
            byte (uint32 msg.Addr.Name.length)] ++ msg.Addr.Name
          ++ (PutUint32LE msg.Session ++ PutUint32LE bytes.length) }), parts, ?_, ?_, ?_, ?_⟩
  · unfold EncodeReq
    simp only [hb, hvalid, if_false, hu, hu1, hu2, hnlt, hP0, hparts]
  · rw [hlen]; exact parts_count _ _ hP hsz
  · by_cases hid : msg.Addr.Id = 0 <;> by_cases hs : msg.Session = 0 <;>
      simp [hid, hs, Nat.pos_of_ne_zero]
  · intro i p hp
    have hi : i < (bytes.length - 1) / PartSize + 1 := by
      rw [← hlen]
      exact (List.getElem?_eq_some_iff.mp hp).1
    obtain ⟨chunk, hc1, hc2⟩ := hall i p hp
    refine ⟨chunk, ?_, ?_⟩
    · rw [hc1]; exact Nat.min_le_right _ _
    · have htag := parts_tag bytes.length PartSize i hP hsz hi
      rw [hc2, hlen]
      by_cases hgt : bytes.length - i * PartSize > PartSize
      · have := htag.mp hgt
        simp [hgt, this]
      · have : i + 1 = (bytes.length - 1) / PartSize + 1 := by
          by_contra hne
          exact hgt (htag.mpr hne)
        simp [hgt, this]

/-- Witness of C8: `pingReq` with `PartSize = 4` (a payload of 8 bytes, 2 parts). -/
theorem C8_multipart_shape_witness :
    ∃ head parts,
      EncodeReq 4 pingReq = .ok (head :: parts) ∧
      parts.length = ((packString [pingReq.Cmd, pingReq.Message]).length + 4 - 1) / 4 ∧
      head.body =
        (if pingReq.Addr.Id ≠ 0 then
           [if pingReq.Session ≠ 0 then 0x01 else 0x41] ++ PutUint32LE pingReq.Addr.Id
         else
           [if pingReq.Session ≠ 0 then 0x81 else 0xc1, byte (uint32 pingReq.Addr.Name.length)]
             ++ pingReq.Addr.Name)
        ++ PutUint32LE pingReq.Session
        ++ PutUint32LE (packString [pingReq.Cmd, pingReq.Message]).length ∧
      ∀ (i : Nat) (p : Packet), parts[i]? = some p →
        ∃ chunk : Bytes, chunk.length ≤ 4 ∧
          p.body
            = [if i + 1 = parts.length then 3 else 2] ++ PutUint32LE pingReq.Session ++ chunk :=
  C8_multipart_shape 4 pingReq (by decide) (by decide) (by decide) (by decide)

/-! ## The contiguous-buffer decoder always finishes -/

theorem sliceFrom_length (a b : Bytes) (lo : Nat) (h : sliceFrom a lo = some b) :
    b.length + lo = a.length := by
  unfold sliceFrom at h
  split at h
  · simp only [Option.some.injEq] at h
    rw [← h, List.length_drop]
    omega
  · cases h

/-- The loop of `unpackStringsFromBytes` ends within `n` iterations whenever the data
is shorter than `n`: every iteration that goes on drops at least one byte. -/
theorem unpackStringsLoop_ne_fuel :
    ∀ (n : Nat) (data : Bytes) (strs : List Bytes),
      data.length < n → unpackStringsLoop n data strs ≠ .fuel := by
  intro n
  induction n with
  | zero => intro data strs h; omega
  | succ n ih =>
    intro data strs h
    unfold unpackStringsLoop
    simp only []
    split
    · simp
    · split
      · simp
      · split
        · split
          · rename_i s data2 hs hd
            have := sliceFrom_length _ _ _ hd
            exact ih _ _ (by omega)
          · simp
        · split
          · split
            · split
              · simp
              · split
                · rename_i s data2 hs hd
                  have := sliceFrom_length _ _ _ hd
                  exact ih _ _ (by omega)
                · simp
            · simp
          · simp

/-- The model of `unpackStringsFromBytes` never runs out of iterations. -/
theorem unpackStringsFromBytes_ne_fuel (data : Bytes) :
    unpackStringsFromBytes data ≠ .fuel :=
  unpackStringsLoop_ne_fuel _ data [] (Nat.lt_succ_self _)

/-! ## Declared lengths of the other packets -/

theorem PutUint32LE_length (v : Nat) : (PutUint32LE v).length = 4 := rfl

/-- Apart from the numeric-address multipart head, every packet written by `EncodeReq`
declares the number of bytes that follow its header, as long as no packet outgrows
the 16-bit field (`PartSize <= 65275`, name of at most 255 bytes).  The
numeric-address multipart head has 13 bytes and declares `uint16(sz + 13)`. -/
theorem declared_length_other_packets (PartSize : Nat) (msg : ReqPack)
    (hP : 0 < PartSize) (hP2 : PartSize ≤ 65275)
    (hname : msg.Addr.Name.length ≤ 255)
    (hvalid : ¬ (msg.Addr.Id = 0 ∧ msg.Addr.Name = []))
    (h32 : (packString [msg.Cmd, msg.Message]).length < 4294967296) :
    ∃ pkts, EncodeReq PartSize msg = .ok pkts ∧
      ∀ (i : Nat) (p : Packet), pkts[i]? = some p →
        p.declared = p.body.length ∨
        (i = 0 ∧ msg.Addr.Id ≠ 0 ∧ PartSize ≤ (packString [msg.Cmd, msg.Message]).length ∧
          p.body.length = 13 ∧
          p.declared = uint16 ((packString [msg.Cmd, msg.Message]).length + 13)) := by
  generalize hb : packString [msg.Cmd, msg.Message] = bytes at h32
  have hP0 : PartSize ≠ 0 := by omega
  have hu : uint32 bytes.length = bytes.length := Nat.mod_eq_of_lt h32
  have hun : uint32 msg.Addr.Name.length = msg.Addr.Name.length :=
    Nat.mod_eq_of_lt (by omega)
  by_cases hlt : bytes.length < PartSize
  · by_cases hid : msg.Addr.Id > 0
    · have henc : EncodeReq PartSize msg
          = .ok [{ declared := uint16 (uint32 (bytes.length + 9)),
                   body := [0] ++ PutUint32LE msg.Addr.Id ++ PutUint32LE msg.Session ++ bytes }] := by
        unfold EncodeReq
        simp only [hb, hvalid, if_false, hu, hlt, if_true, hid]
      refine ⟨_, henc, ?_⟩
      intro i p hp
      left
      cases i with
      | zero =>
        simp only [List.getElem?_cons_zero, Option.some.injEq] at hp
        rw [← hp]
        simp only [List.length_append, List.length_cons, List.length_nil, PutUint32LE_length,
          uint16, uint32]
        omega
      | succ i => simp at hp
    · have henc : EncodeReq PartSize msg
          = .ok [{ declared := uint16 (uint32 (bytes.length + 6 + uint32 msg.Addr.Name.length)),
                   body := [0x80, byte (uint32 msg.Addr.Name.length)] ++ msg.Addr.Name
                     ++ PutUint32LE msg.Session ++ bytes }] := by
        unfold EncodeReq
        simp only [hb, hvalid, if_false, hu, hlt, if_true, hid]
      refine ⟨_, henc, ?_⟩
      intro i p hp
      left
      cases i with
      | zero =>
        simp only [List.getElem?_cons_zero, Option.some.injEq] at hp
        rw [← hp]
        simp only [List.length_append, List.length_cons, List.length_nil, PutUint32LE_length,
          hun, uint16, uint32]
        omega
      | succ i => simp at hp
  · have hsz : PartSize ≤ bytes.length := by omega
    have hu1 : uint32 (bytes.length - 1) = bytes.length - 1 := Nat.mod_eq_of_lt (by omega)
    have hdiv : (bytes.length - 1) / PartSize ≤ bytes.length - 1 := Nat.div_le_self _ _
    have hu2 : uint32 ((bytes.length - 1) / PartSize + 1)
        = (bytes.length - 1) / PartSize + 1 := Nat.mod_eq_of_lt (by omega)
    obtain ⟨parts, hparts, -, hall⟩ := encodeParts_spec PartSize msg.Session bytes
      ((bytes.length - 1) / PartSize + 1) 0 bytes.length (by omega) (by omega)
    have henc : EncodeReq PartSize msg
        = .ok ((if msg.Addr.Id > 0 then
            { declared := uint16 (uint32 (bytes.length + 13)),
              body := [if decide (msg.Session ≤ 0) = true then 0x41 else 1]
                ++ PutUint32LE msg.Addr.Id
                ++ (PutUint32LE msg.Session ++ PutUint32LE bytes.length) }
          else
            { declared := uint16 (uint32 (uint32 msg.Addr.Name.length + 10)),
              body := [if decide (msg.Session ≤ 0) = true then 0xc1 else 0x81,
                  byte (uint32 msg.Addr.Name.length)] ++ msg.Addr.Name
                ++ (PutUint32LE msg.Session ++ PutUint32LE bytes.length) }) :: parts) := by
      unfold EncodeReq
      simp only [hb, hvalid, if_false, hu, hu1, hu2, hlt, hP0, hparts]
    refine ⟨_, henc, ?_⟩
    intro i p hp
    cases i with
    | zero =>
      simp only [List.getElem?_cons_zero, Option.some.injEq] at hp
      by_cases hid : msg.Addr.Id > 0
      · right
        refine ⟨rfl, by omega, hsz, ?_, ?_⟩
        · rw [← hp]; simp [hid, PutUint32LE_length]
        · rw [← hp]
          simp only [hid, if_true, uint16, uint32]
          omega
      · left
        rw [← hp]
        simp only [hid, if_false, List.length_append, List.length_cons, List.length_nil,
          PutUint32LE_length, hun, uint16, uint32]
        omega
    | succ i =>
      left
      simp only [List.getElem?_cons_succ] at hp
      obtain ⟨chunk, hc1, hc2⟩ := hall i p hp
      rw [hc2]
      simp only [List.length_append, List.length_cons, List.length_nil, PutUint32LE_length,
        hc1, uint16, uint32]
      have : min (bytes.length - i * PartSize) PartSize ≤ PartSize := Nat.min_le_right _ _
      omega

/-! ## The contiguous-buffer decoder on concatenated encodings -/

/-- C11 (evaluation at the failing inputs).  The encodings of "ping" and "hi",
concatenated, are `24 70 69 6e 67 14 68 69`; `unpackStringsFromBytes` takes `L + 1 = 5`
bytes for the first string, is left with `68 69` and returns an error.  On the
encodings of "a" and "" (`0c 61 04`) it returns the single string `61 04`.  On the
encoding of "ping" alone it ends in a run-time panic (slice bounds out of range). -/
theorem C11_unpackStringsFromBytes_over_reads :
    specEncode [0x70, 0x69, 0x6e, 0x67] ++ specEncode [0x68, 0x69]
      = [0x24, 0x70, 0x69, 0x6e, 0x67, 0x14, 0x68, 0x69] ∧
    packString [[0x70, 0x69, 0x6e, 0x67], [0x68, 0x69]]
      = [0x24, 0x70, 0x69, 0x6e, 0x67, 0x14, 0x68, 0x69] ∧
    unpackStringsFromBytes [0x24, 0x70, 0x69, 0x6e, 0x67, 0x14, 0x68, 0x69]
      = .error (.unpackStringSize 2 13) ∧
    specEncode [0x61] ++ specEncode [] = [0x0c, 0x61, 0x04] ∧
    unpackStringsFromBytes [0x0c, 0x61, 0x04] = .ok [[0x61, 0x04]] ∧
    unpackStringsFromBytes (specEncode [0x70, 0x69, 0x6e, 0x67]) = .panic := by
  refine ⟨?_, ?_, ?_, ?_, ?_, ?_⟩ <;> decide

/-! ## Scenario 1: the bytes of a short numeric call -/

/-- C15 (counterexample), with `PartSize = 9`.  What `EncodeReq` writes for `pingReq`
is `00 11 00 07 00 00 00 2a 00 00 00 24 70 69 6e 67 14 68 69`; it does not begin with
the 19 bytes `00 0f 00 07 00 00 00 2a 00 00 00 20 70 69 6e 67 10 68 69`. -/
theorem C15_scenario_bytes_counterexample :
    ∃ pkt, EncodeReq 9 pingReq = .ok [pkt] ∧
      pkt.wire = [0x00, 0x11, 0x00, 0x07, 0x00, 0x00, 0x00, 0x2a, 0x00, 0x00, 0x00,
                  0x24, 0x70, 0x69, 0x6e, 0x67, 0x14, 0x68, 0x69] ∧
      pkt.wire.take 19 ≠ [0x00, 0x0f, 0x00, 0x07, 0x00, 0x00, 0x00, 0x2a, 0x00, 0x00, 0x00,
                          0x20, 0x70, 0x69, 0x6e, 0x67, 0x10, 0x68, 0x69] := by
  refine ⟨{ declared := 17,
            body := [0, 7, 0, 0, 0, 42, 0, 0, 0, 0x24, 0x70, 0x69, 0x6e, 0x67, 0x14, 0x68, 0x69] },
    ?_, ?_, ?_⟩ <;> decide

/-- C15 (amended): for every `PartSize > 8`, `EncodeReq` on `pingReq` (`Id = 7`, session
42, command "ping", message "hi") writes one packet, whose bytes are exactly
`00 11 00 07 00 00 00 2a 00 00 00 24 70 69 6e 67 14 68 69`: length 17 big-endian, type
0, address 7 and session 42 little-endian, command header `0x24 = 4 | (4 << 3)`,
"ping", message header `0x14 = 4 | (2 << 3)`, "hi". -/
theorem C15_scenario_bytes (PartSize : Nat) (hP : 8 < PartSize) :
    ∃ pkt, EncodeReq PartSize pingReq = .ok [pkt] ∧
      pkt.wire = [0x00, 0x11, 0x00, 0x07, 0x00, 0x00, 0x00, 0x2a, 0x00, 0x00, 0x00,
                  0x24, 0x70, 0x69, 0x6e, 0x67, 0x14, 0x68, 0x69] ∧
      combineType 4 4 = 0x24 ∧ combineType 4 2 = 0x14 := by
  have hb : packString [pingReq.Cmd, pingReq.Message]
      = [0x24, 0x70, 0x69, 0x6e, 0x67, 0x14, 0x68, 0x69] := by decide
  have hid : pingReq.Addr.Id > 0 := by decide
  have hv : ¬ (pingReq.Addr.Id = 0 ∧ pingReq.Addr.Name = []) := by decide
  have hsz : uint32 ([0x24, 0x70, 0x69, 0x6e, 0x67, 0x14, 0x68, 0x69] : Bytes).length
      < PartSize := by
    have : uint32 ([0x24, 0x70, 0x69, 0x6e, 0x67, 0x14, 0x68, 0x69] : Bytes).length = 8 := by
      decide
    omega
  refine ⟨{ declared := 17,
            body := [0, 7, 0, 0, 0, 42, 0, 0, 0, 0x24, 0x70, 0x69, 0x6e, 0x67, 0x14, 0x68, 0x69] },
    ?_, by decide, by decide, by decide⟩
  unfold EncodeReq
  simp only [hb, hv, if_false, hsz, if_true, hid]
  decide

/-- Witness of C15 (amended): `PartSize = 100`. -/
theorem C15_scenario_bytes_witness :
    8 < 100 ∧
    ∃ pkt, EncodeReq 100 pingReq = .ok [pkt] ∧
      pkt.wire = [0x00, 0x11, 0x00, 0x07, 0x00, 0x00, 0x00, 0x2a, 0x00, 0x00, 0x00,
                  0x24, 0x70, 0x69, 0x6e, 0x67, 0x14, 0x68, 0x69] ∧
      combineType 4 4 = 0x24 ∧ combineType 4 2 = 0x14 :=
  ⟨by decide, C15_scenario_bytes 100 (by decide)⟩

/-! ## The chunks of a multipart sequence -/

/-- C20 (evaluation at the failing input), with `PartSize = 4`.  The packed payload of
`helloReq` has 11 bytes and `EncodeReq` writes it in three parts.  The third chunk is
`67 2c 68`, bytes 4 to 6 of the payload, where bytes 8 to 10 are `6c 6c 6f`: the
chunks concatenated are not the payload. -/
theorem C20_third_chunk_repeats_second :
    packString [helloReq.Cmd, helloReq.Message]
      = [0x24, 0x70, 0x69, 0x6e, 0x67, 0x2c, 0x68, 0x65, 0x6c, 0x6c, 0x6f] ∧
    ∃ head p0 p1 p2, EncodeReq 4 helloReq = .ok [head, p0, p1, p2] ∧
      partChunk p0 = [0x24, 0x70, 0x69, 0x6e] ∧
      partChunk p1 = [0x67, 0x2c, 0x68, 0x65] ∧
      partChunk p2 = [0x67, 0x2c, 0x68] ∧
      partChunk p2 ≠ ((packString [helloReq.Cmd, helloReq.Message]).drop 8).take 3 ∧
      partChunk p0 ++ partChunk p1 ++ partChunk p2
        ≠ packString [helloReq.Cmd, helloReq.Message] := by
  refine ⟨by decide,
    { declared := 24, body := [1, 7, 0, 0, 0, 42, 0, 0, 0, 11, 0, 0, 0] },
    { declared := 9, body := [2, 42, 0, 0, 0, 0x24, 0x70, 0x69, 0x6e] },
    { declared := 9, body := [2, 42, 0, 0, 0, 0x67, 0x2c, 0x68, 0x65] },
    { declared := 8, body := [3, 42, 0, 0, 0, 0x67, 0x2c, 0x68] },
    ?_, ?_, ?_, ?_, ?_, ?_⟩ <;> decide

/-! ## Closing a sender agent -/

/-- C18 (evaluation at the failing input).  After `Call` (session 1), the response for
session 1 and a second `Call` (session 2), one caller is waiting, on channel 1, and
`ReqSessions` still holds both sessions.  The deferred loop of `WaitResponse` ranges
over both entries.  Visiting session 1 first, it blocks on the channel of the caller
that has already returned and delivers no response; visiting session 2 first, it
delivers one "socket close" response and then blocks on session 1. -/
theorem C18_close_ranges_over_answered_sessions :
    answeredThenWaiting.agent.ReqSessions = [(1, 0), (2, 1)] ∧
    answeredThenWaiting.receivers = [1] ∧
    closeLoop [(1, 0), (2, 1)] answeredThenWaiting.receivers
      = { delivered := [], blockedOn := some 1 } ∧
    closeLoop [(2, 1), (1, 0)] answeredThenWaiting.receivers
      = { delivered := [socketClose 2], blockedOn := some 1 } := by
  refine ⟨?_, ?_, ?_, ?_⟩ <;> decide

/-! ## Sessions of a sender agent -/

theorem genSessions_eq_range' :
    ∀ (n : Nat) (agent : SenderAgent), agent.IncSession + n ≤ 4294967296 →
      genSessions n agent = List.range' agent.IncSession n := by
  intro n
  induction n with
  | zero => intro agent _; rfl
  | succ n ih =>
    intro agent h
    cases n with
    | zero => rfl
    | succ m =>
      have hu : uint32 (agent.IncSession + 1) = agent.IncSession + 1 :=
        Nat.mod_eq_of_lt (by omega)
      have hrec := ih (GenSession agent).2 (by
        show uint32 (agent.IncSession + 1) + (m + 1) ≤ 4294967296
        rw [hu]; omega)
      show agent.IncSession :: genSessions (m + 1) (GenSession agent).2 = _
      rw [hrec]
      show agent.IncSession :: List.range' (uint32 (agent.IncSession + 1)) (m + 1) = _
      rw [hu]
      rfl

theorem genSessions_getElem? :
    ∀ (n : Nat) (agent : SenderAgent) (i : Nat), i < n → agent.IncSession < 4294967296 →
      (genSessions n agent)[i]? = some (uint32 (agent.IncSession + i)) := by
  intro n
  induction n with
  | zero => intro agent i hi; omega
  | succ n ih =>
    intro agent i hi h32
    cases i with
    | zero =>
      simp only [genSessions, List.getElem?_cons_zero, GenSession, Nat.add_zero, uint32,
        Nat.mod_eq_of_lt h32]
    | succ j =>
      simp only [genSessions, List.getElem?_cons_succ]
      rw [ih (GenSession agent).2 j (by omega) (Nat.mod_lt _ (by norm_num))]
      simp only [GenSession, uint32, Option.some.injEq]
      omega

/-- C17 (counterexample).  Of `2^32` successive calls of `GenSession` on a fresh agent
the last one returns 0; and of `2^32 + 1` successive calls the first and the last both
return 1. -/
theorem C17_sessions_wrap_counterexample :
    (genSessions 4294967296 NewSenderAgent)[4294967295]? = some 0 ∧
    (genSessions 4294967297 NewSenderAgent)[0]? = some 1 ∧
    (genSessions 4294967297 NewSenderAgent)[4294967296]? = some 1 := by
  refine ⟨?_, ?_, ?_⟩
  · exact (genSessions_getElem? 4294967296 NewSenderAgent 4294967295
      (by norm_num) (by decide)).trans (by decide)
  · exact (genSessions_getElem? 4294967297 NewSenderAgent 0
      (by norm_num) (by decide)).trans (by decide)
  · exact (genSessions_getElem? 4294967297 NewSenderAgent 4294967296
      (by norm_num) (by decide)).trans (by decide)

/-- C17 (amended): for every `N < 2^32`, the `N` sessions returned by `N` successive
calls of `GenSession` on an agent made by `NewSenderAgent` are `1, 2, ..., N`: they
are pairwise distinct and none of them is 0. -/
theorem C17_sessions_distinct_nonzero (N : Nat) (hN : N < 4294967296) :
    genSessions N NewSenderAgent = List.range' 1 N ∧
    (genSessions N NewSenderAgent).Nodup ∧
    ∀ s ∈ genSessions N NewSenderAgent, s ≠ 0 := by
  have h := genSessions_eq_range' N NewSenderAgent (by
    show 1 + N ≤ 4294967296
    omega)
  have h1 : genSessions N NewSenderAgent = List.range' 1 N := h
  refine ⟨h1, ?_, ?_⟩
  · rw [h1]; exact List.nodup_range' 1 N
  · intro s hs
    rw [h1, List.mem_range'_1] at hs
    omega

/-- Witness of C17 (amended): three calls return 1, 2, 3. -/
theorem C17_sessions_distinct_nonzero_witness :
    3 < 4294967296 ∧
    genSessions 3 NewSenderAgent = List.range' 1 3 ∧
    (genSessions 3 NewSenderAgent).Nodup ∧
    ∀ s ∈ genSessions 3 NewSenderAgent, s ≠ 0 :=
  ⟨by decide, C17_sessions_distinct_nonzero 3 (by decide)⟩

/-! ## Unsupported string headers -/

theorem header_cookie_byte (header : Nat) (hb : header < 256) :
    byte (header >>> 3) = header >>> 3 ∧ byte (header >>> 3 + 1) = header >>> 3 + 1 := by
  have h : header >>> 3 < 32 := by
    rw [Nat.shiftRight_eq_div_pow]
    omega
  unfold byte
  constructor <;> omega

/-- C12: for every non-empty input whose first byte has a type tag (low 3 bits) other
than 4 and 5, or the type tag 5 with a cookie (high 5 bits) other than 2 and 4, both
decode surfaces return an error and no string: `unpackString` the error of the
unsupported type or cookie, `unpackStringsFromBytes` that same error, unless the
buffer holds fewer than `cookie + 1` bytes, when it returns its size error. -/
theorem C12_unsupported_headers_rejected (header : Nat) (rest : Bytes) (hb : header < 256)
    (hbad : (header &&& 0x7 ≠ 4 ∧ header &&& 0x7 ≠ 5) ∨
            (header &&& 0x7 = 5 ∧ header >>> 3 ≠ 2 ∧ header >>> 3 ≠ 4)) :
    unpackString (header :: rest)
      = .error (if header &&& 0x7 = 5 then .nonsupportStream 5 (header >>> 3)
                else .nonsupportUnpack (header &&& 0x7)) ∧
    unpackStringsFromBytes (header :: rest)
      = .error (if rest.length + 1 < header >>> 3 + 1
                then .unpackStringSize (rest.length + 1) (header >>> 3)
                else if header &&& 0x7 = 5 then .nonsupportStream 5 (header >>> 3)
                else .nonsupportUnpack (header &&& 0x7)) := by
  obtain ⟨hc1, hc2⟩ := header_cookie_byte header hb
  constructor
  · rcases hbad with ⟨h4, h5⟩ | ⟨h5, h2, h4⟩
    · simp [unpackString, ReadByte, h4, h5]
    · simp [unpackString, ReadByte, h5, h2, h4]
  · unfold unpackStringsFromBytes
    simp only [List.length_cons, unpackStringsLoop, List.headD_cons, hc1, hc2]
    have hpos : ¬ (rest.length + 1 ≤ 0) := by omega
    simp only [hpos, if_false]
    by_cases hsz : rest.length + 1 < header >>> 3 + 1
    · simp only [hsz, if_true]
    · simp only [hsz, if_false]
      rcases hbad with ⟨h4, h5⟩ | ⟨h5, h2, h4⟩
      · simp [h4, h5]
      · simp [h5, h2, h4]

/-- Witness of C12: the header `0x03` (type 3) before two more bytes. -/
theorem C12_unsupported_headers_rejected_witness :
    unpackString (3 :: [1, 2])
      = .error (if 3 &&& 0x7 = 5 then .nonsupportStream 5 (3 >>> 3)
                else .nonsupportUnpack (3 &&& 0x7)) ∧
    unpackStringsFromBytes (3 :: [1, 2])
      = .error (if [1, 2].length + 1 < 3 >>> 3 + 1
                then .unpackStringSize ([1, 2].length + 1) (3 >>> 3)
                else if 3 &&& 0x7 = 5 then .nonsupportStream 5 (3 >>> 3)
                else .nonsupportUnpack (3 &&& 0x7)) :=
  C12_unsupported_headers_rejected 3 [1, 2] (by decide) (Or.inl ⟨by decide, by decide⟩)

/-! ## Tag validation -/

/-- C13: for every table, `DecodeReq` returns an error with no request and hands the
table back unchanged on the empty packet, on a packet whose first byte is `0x04`, and
on a packet whose first byte `t` is outside `{0x00, 0x01, 0x02, 0x03, 0x41, 0x80, 0x81,
0xC1}`. -/
theorem C13_tag_validation (tbl : Table) (t : Nat) (rest : Bytes)
    (ht : t ≠ 0 ∧ t ≠ 1 ∧ t ≠ 2 ∧ t ≠ 3 ∧ t ≠ 0x41 ∧ t ≠ 0x80 ∧ t ≠ 0x81 ∧ t ≠ 0xc1) :
    DecodeReq [] tbl = (.value none (some .invalidPackageSize0), tbl) ∧
    DecodeReq (4 :: rest) tbl = (.value none (some .nonsupportTrace), tbl) ∧
    DecodeReq (t :: rest) tbl
      = (.value none (some (if t = 4 then .nonsupportTrace else .invalidReqType t)), tbl) := by
  obtain ⟨h0, h1, h2, h3, h41, h80, h81, hc1⟩ := ht
  refine ⟨rfl, ?_, ?_⟩
  · simp [DecodeReq, ReadByte]
  · by_cases h4 : t = 4
    · subst h4
      simp [DecodeReq, ReadByte]
    · simp [DecodeReq, ReadByte, h0, h1, h2, h3, h4, h41, h80, h81, hc1]

/-- Witness of C13: the tag `0x05` on the empty table. -/
theorem C13_tag_validation_witness :
    DecodeReq [] Table.empty = (.value none (some .invalidPackageSize0), Table.empty) ∧
    DecodeReq (4 :: [1, 2]) Table.empty = (.value none (some .nonsupportTrace), Table.empty) ∧
    DecodeReq (5 :: [1, 2]) Table.empty
      = (.value none (some (if 5 = 4 then .nonsupportTrace else .invalidReqType 5)),
         Table.empty) :=
  C13_tag_validation Table.empty 5 [1, 2]
    ⟨by decide, by decide, by decide, by decide, by decide, by decide, by decide, by decide⟩

/-! ## The tail packet retires its entry -/

theorem unpackLargeReqPart_tail_table (pkg : Reader) (tbl : Table) (session : Nat)
    (req : ReqPack) (h4 : ¬ pkg.length < 4)
    (hs : Uint32LE (ReadBinaryIgn pkg 4).1 = some session) (hkey : tbl session = some req) :
    ∃ r, (unpackLargeReqPart pkg tbl true).2 = (tbl.set session r).delete session := by
  unfold unpackLargeReqPart
  simp only [h4, if_false, hs, hkey, if_true]
  refine ⟨{ req with
    Message := req.Message ++ (ReadBinaryIgn (ReadBinaryIgn pkg 4).2 (pkg.length - 4)).1 }, ?_⟩
  split
  · rfl
  · rfl
  · rfl
  · split <;> rfl

/-- C19: for every table that has an entry for session `s` and every tail packet (tag
`0x03`) for `s` with any chunk, the table after `DecodeReq` has no entry for `s`,
whatever the decoding of the accumulated buffer gives (a request, an error or a
panic), and the entry of every other session is what it was. -/
theorem C19_tail_retires_entry (b0 b1 b2 b3 : Nat) (chunk : Bytes) (tbl : Table)
    (req : ReqPack)
    (hkey : tbl (b0 + b1 * 256 + b2 * 65536 + b3 * 16777216) = some req) :
    (DecodeReq (3 :: b0 :: b1 :: b2 :: b3 :: chunk) tbl).2
        (b0 + b1 * 256 + b2 * 65536 + b3 * 16777216) = none ∧
    ∀ k, k ≠ b0 + b1 * 256 + b2 * 65536 + b3 * 16777216 →
      (DecodeReq (3 :: b0 :: b1 :: b2 :: b3 :: chunk) tbl).2 k = tbl k := by
  have hlen : ¬ (b0 :: b1 :: b2 :: b3 :: chunk).length < 4 := by
    simp only [List.length_cons]; omega
  obtain ⟨r, hr⟩ := unpackLargeReqPart_tail_table (b0 :: b1 :: b2 :: b3 :: chunk) tbl
    (b0 + b1 * 256 + b2 * 65536 + b3 * 16777216) req hlen
    (by rw [ReadBinaryIgn_four]; rfl) hkey
  have hd : DecodeReq (3 :: b0 :: b1 :: b2 :: b3 :: chunk) tbl
      = unpackLargeReqPart (b0 :: b1 :: b2 :: b3 :: chunk) tbl true := by
    simp [DecodeReq, ReadByte]
  rw [hd, hr]
  constructor
  · simp [Table.delete]
  · intro k hk
    simp [Table.delete, Table.set, hk]

/-- Witness of C19: the table after the head `01 | addr 7 | session 42 | size 8` and
the tail `03 | session 42 | "xx"`. -/
theorem C19_tail_retires_entry_witness :
    (DecodeReq (3 :: 42 :: 0 :: 0 :: 0 :: [0x78, 0x78])
        (Table.empty.set 42 { pingReq with Cmd := [], Message := [] })).2
        (42 + 0 * 256 + 0 * 65536 + 0 * 16777216) = none ∧
    ∀ k, k ≠ 42 + 0 * 256 + 0 * 65536 + 0 * 16777216 →
      (DecodeReq (3 :: 42 :: 0 :: 0 :: 0 :: [0x78, 0x78])
        (Table.empty.set 42 { pingReq with Cmd := [], Message := [] })).2 k
        = (Table.empty.set 42 { pingReq with Cmd := [], Message := [] }) k :=
  C19_tail_retires_entry 42 0 0 0 [0x78, 0x78]
    (Table.empty.set 42 { pingReq with Cmd := [], Message := [] })
    { pingReq with Cmd := [], Message := [] } (by decide)

/-! ## Short numeric requests round-trip -/

theorem combineType_short (L : Nat) (h : L < 32) :
    combineType 4 (byte L) = 4 ||| (L <<< 3) := by
  interval_cases L <;> decide

theorem packOne_short (buffer s : Bytes) (h : s.length < 32) :
    packOne buffer s = buffer ++ (4 ||| (s.length <<< 3)) :: s := by
  unfold packOne
  simp only [h, if_true, combineType_short s.length h]
  by_cases h0 : s.length > 0
  · simp [h0]
  · have hs : s = [] := List.length_eq_zero.mp (by omega)
    subst hs
    simp

theorem packString_pair_short (cmd msg : Bytes) (hc : cmd.length < 32) (hm : msg.length < 32) :
    packString [cmd, msg]
      = (4 ||| (cmd.length <<< 3)) :: cmd ++ (4 ||| (msg.length <<< 3)) :: msg := by
  simp [packString, packOne_short, hc, hm]

theorem unpackString_short (s r : Bytes) (h : s.length < 32) :
    unpackString ((4 ||| (s.length <<< 3)) :: (s ++ r)) = .ok (s, r) := by
  obtain ⟨h1, h2⟩ := header_short s.length h
  simp only [unpackString, ReadByte, h1, h2, if_true]
  exact ReadBinary_append s r

/-- C16: for every `Id` other than 0 with an empty name, every 32-bit session and every
command and message each shorter than 32 bytes whose packed length is below
`PartSize`, `EncodeReq` writes one packet, and `DecodeReq` on the bytes after its
length header returns, with no error and the table unchanged, a request with that
`Id`, an empty name, the same session, the same command and the same message. -/
theorem C16_short_numeric_round_trip (PartSize Id session : Nat) (cmd msg : Bytes)
    (tbl : Table)
    (hId : Id ≠ 0) (hId32 : Id < 4294967296) (hs32 : session < 4294967296)
    (hc : cmd.length < 32) (hm : msg.length < 32)
    (hsz : (packString [cmd, msg]).length < PartSize) :
    ∃ pkt,
      EncodeReq PartSize
          { Addr := { Id := Id, Name := [] }, Session := session, Cmd := cmd, Message := msg }
        = .ok [pkt] ∧
      DecodeReq pkt.body tbl
        = (.value
            (some { Addr := { Id := Id, Name := [] }, Session := session,
                    Cmd := cmd, Message := msg })
            none,
           tbl) := by
  have hpk := packString_pair_short cmd msg hc hm
  have hlen : (packString [cmd, msg]).length = cmd.length + msg.length + 2 := by
    rw [hpk]; simp; omega
  have hu : uint32 (packString [cmd, msg]).length = (packString [cmd, msg]).length :=
    Nat.mod_eq_of_lt (by omega)
  have hpos : Id > 0 := Nat.pos_of_ne_zero hId
  refine ⟨{ declared := uint16 (uint32 ((packString [cmd, msg]).length + 9)),
            body := [0] ++ PutUint32LE Id ++ PutUint32LE session ++ packString [cmd, msg] },
    ?_, ?_⟩
  · unfold EncodeReq
    simp only [hu, hsz, if_true, hpos, hId, false_and, if_false]
  · have hle1 : Uint32LE (PutUint32LE Id) = some Id := by
      simpa using Uint32LE_PutUint32LE Id [] hId32
    have hle2 : Uint32LE (PutUint32LE session) = some session := by
      simpa using Uint32LE_PutUint32LE session [] hs32
    have hsh1 := unpackString_short cmd ((4 ||| (msg.length <<< 3)) :: msg) hc
    have hsh2 := unpackString_short msg [] hm
    rw [List.append_nil] at hsh2
    have hlen8 : ¬ (PutUint32LE Id ++ PutUint32LE session ++ packString [cmd, msg]).length < 8 := by
      simp only [List.length_append, PutUint32LE_length]
      omega
    have hne : ([0] ++ PutUint32LE Id ++ PutUint32LE session ++ packString [cmd, msg]).length
        ≠ 0 := by
      simp
    have hbody : [0] ++ PutUint32LE Id ++ PutUint32LE session ++ packString [cmd, msg]
        = 0 :: (PutUint32LE Id ++ PutUint32LE session ++ packString [cmd, msg]) := by
      simp
    have hr1 : ReadBinary (PutUint32LE Id ++ PutUint32LE session ++ packString [cmd, msg]) 4
        = .ok (PutUint32LE Id, PutUint32LE session ++ packString [cmd, msg]) := by
      have := ReadBinary_append (PutUint32LE Id) (PutUint32LE session ++ packString [cmd, msg])
      simpa [PutUint32LE_length] using this
    have hr2 : ReadBinary (PutUint32LE session ++ packString [cmd, msg]) 4
        = .ok (PutUint32LE session, packString [cmd, msg]) := by
      have := ReadBinary_append (PutUint32LE session) (packString [cmd, msg])
      simpa [PutUint32LE_length] using this
    have hun : unpackReqNumber (PutUint32LE Id ++ PutUint32LE session ++ packString [cmd, msg])
        = .value
            (some { Addr := { Id := Id, Name := [] }, Session := session,
                    Cmd := cmd, Message := msg })
            none := by
      unfold unpackReqNumber
      simp only [hlen8, if_false, hr1, hle1, hr2, hle2]
      rw [hpk]
      simp only [List.cons_append, hsh1, hsh2]
    show DecodeReq ([0] ++ PutUint32LE Id ++ PutUint32LE session ++ packString [cmd, msg]) tbl = _
    rw [hbody]
    simp only [DecodeReq, List.length_cons, ReadByte, if_true, hun]
    simp

/-- Witness of C16: `pingReq` with `PartSize = 100` on the empty table. -/
theorem C16_short_numeric_round_trip_witness :
    ∃ pkt,
      EncodeReq 100
          { Addr := { Id := 7, Name := [] }, Session := 42,
            Cmd := [0x70, 0x69, 0x6e, 0x67], Message := [0x68, 0x69] }
        = .ok [pkt] ∧
      DecodeReq pkt.body Table.empty
        = (.value
            (some { Addr := { Id := 7, Name := [] }, Session := 42,
                    Cmd := [0x70, 0x69, 0x6e, 0x67], Message := [0x68, 0x69] })
            none,
           Table.empty) :=
  C16_short_numeric_round_trip 100 7 42 [0x70, 0x69, 0x6e, 0x67] [0x68, 0x69] Table.empty
    (by decide) (by decide) (by decide) (by decide) (by decide) (by decide)

/-! ## Address exclusivity on decode -/

theorem Exclusive_set (tbl : Table) (session : Nat) (req : ReqPack) (h : tbl.Exclusive)
    (hr : req.Addr.Id = 0 ∨ req.Addr.Name = []) : (tbl.set session req).Exclusive := by
  intro k r hk
  unfold Table.set at hk
  split at hk
  · cases hk; exact hr
  · exact h k r hk

theorem Exclusive_delete (tbl : Table) (session : Nat) (h : tbl.Exclusive) :
    (tbl.delete session).Exclusive := by
  intro k r hk
  unfold Table.delete at hk
  split at hk
  · cases hk
  · exact h k r hk

theorem unpackReqNumber_name (pkg : Reader) (req : ReqPack) (err : Option Err)
    (h : unpackReqNumber pkg = .value (some req) err) : req.Addr.Name = [] := by
  unfold unpackReqNumber at h
  simp only [] at h
  repeat' split at h
  all_goals cases h <;> rfl

theorem unpackReqStr_id (pkg : Reader) (req : ReqPack) (err : Option Err)
    (h : unpackReqStr pkg = .value (some req) err) : req.Addr.Id = 0 := by
  unfold unpackReqStr at h
  simp only [] at h
  repeat' split at h
  all_goals cases h <;> rfl

theorem unpackLargeReqNumber_excl (pkg : Reader) (tbl : Table) (push : Bool)
    (hinv : tbl.Exclusive) :
    (unpackLargeReqNumber pkg tbl push).2.Exclusive ∧
    ∀ req err, (unpackLargeReqNumber pkg tbl push).1 ≠ .value (some req) err := by
  unfold unpackLargeReqNumber
  simp only []
  repeat' split
  all_goals first
    | exact ⟨hinv, by intro req err h; cases h⟩
    | exact ⟨Exclusive_set _ _ _ hinv (Or.inr rfl), by intro req err h; cases h⟩

theorem unpackLargeReqStr_excl (pkg : Reader) (tbl : Table) (push : Bool)
    (hinv : tbl.Exclusive) :
    (unpackLargeReqStr pkg tbl push).2.Exclusive ∧
    ∀ req err, (unpackLargeReqStr pkg tbl push).1 ≠ .value (some req) err := by
  unfold unpackLargeReqStr
  simp only []
  repeat' split
  all_goals first
    | exact ⟨hinv, by intro req err h; cases h⟩
    | exact ⟨Exclusive_set _ _ _ hinv (Or.inl rfl), by intro req err h; cases h⟩

theorem unpackLargeReqPart_excl (pkg : Reader) (tbl : Table) (lastPart : Bool)
    (hinv : tbl.Exclusive) :
    (unpackLargeReqPart pkg tbl lastPart).2.Exclusive ∧
    ∀ req err, (unpackLargeReqPart pkg tbl lastPart).1 = .value (some req) err →
      req.Addr.Id = 0 ∨ req.Addr.Name = [] := by
  unfold unpackLargeReqPart
  simp only []
  split
  · exact ⟨hinv, by intro req err h; cases h⟩
  · split
    · exact ⟨hinv, by intro req err h; cases h⟩
    · split
      · exact ⟨hinv, by intro req err h; cases h⟩
      · rename_i session _ entry hentry
        have hr := hinv _ _ hentry
        split
        · split
          · exact ⟨Exclusive_delete _ _ (Exclusive_set _ _ _ hinv hr),
              by intro req err h; cases h; exact hr⟩
          · exact ⟨Exclusive_delete _ _ (Exclusive_set _ _ _ hinv hr),
              by intro req err h; cases h⟩
          · exact ⟨Exclusive_delete _ _ (Exclusive_set _ _ _ hinv hr),
              by intro req err h; cases h⟩
          · split
            · exact ⟨Exclusive_delete _ _ (Exclusive_set _ _ _ hinv hr),
                by intro req err h; cases h; exact hr⟩
            · exact ⟨Exclusive_delete _ _ (Exclusive_set _ _ _ hinv hr),
                by intro req err h; cases h⟩
        · exact ⟨Exclusive_set _ _ _ hinv hr, by intro req err h; cases h; exact hr⟩

theorem DecodeReq_excl (pkg : Reader) (tbl : Table) (hinv : tbl.Exclusive) :
    (DecodeReq pkg tbl).2.Exclusive ∧
    ∀ req err, (DecodeReq pkg tbl).1 = .value (some req) err →
      req.Addr.Id = 0 ∨ req.Addr.Name = [] := by
  cases pkg with
  | nil =>
    have hd : DecodeReq [] tbl = (.value none (some .invalidPackageSize0), tbl) := rfl
    rw [hd]
    exact ⟨hinv, by intro req err h; cases h⟩
  | cons t rest =>
    by_cases h0 : t = 0
    · have hd : DecodeReq (t :: rest) tbl = (unpackReqNumber rest, tbl) := by
        simp [DecodeReq, ReadByte, h0]
      rw [hd]
      exact ⟨hinv, fun req err h => Or.inr (unpackReqNumber_name _ req err h)⟩
    by_cases h1 : t = 1
    · have hd : DecodeReq (t :: rest) tbl = unpackLargeReqNumber rest tbl false := by
        simp [DecodeReq, ReadByte, h1]
      rw [hd]
      exact ⟨(unpackLargeReqNumber_excl _ tbl false hinv).1,
        fun req err h => absurd h ((unpackLargeReqNumber_excl _ tbl false hinv).2 req err)⟩
    by_cases h41 : t = 0x41
    · have hd : DecodeReq (t :: rest) tbl = unpackLargeReqNumber rest tbl true := by
        simp [DecodeReq, ReadByte, h41]
      rw [hd]
      exact ⟨(unpackLargeReqNumber_excl _ tbl true hinv).1,
        fun req err h => absurd h ((unpackLargeReqNumber_excl _ tbl true hinv).2 req err)⟩
    by_cases h2 : t = 2
    · have hd : DecodeReq (t :: rest) tbl = unpackLargeReqPart rest tbl false := by
        simp [DecodeReq, ReadByte, h2]
      rw [hd]
      exact unpackLargeReqPart_excl _ tbl false hinv
    by_cases h3 : t = 3
    · have hd : DecodeReq (t :: rest) tbl = unpackLargeReqPart rest tbl true := by
        simp [DecodeReq, ReadByte, h3]
      rw [hd]
      exact unpackLargeReqPart_excl _ tbl true hinv
    by_cases h80 : t = 0x80
    · have hd : DecodeReq (t :: rest) tbl = (unpackReqStr rest, tbl) := by
        simp [DecodeReq, ReadByte, h80]
      rw [hd]
      exact ⟨hinv, fun req err h => Or.inl (unpackReqStr_id _ req err h)⟩
    by_cases h81 : t = 0x81
    · have hd : DecodeReq (t :: rest) tbl = unpackLargeReqStr rest tbl false := by
        simp [DecodeReq, ReadByte, h81]
      rw [hd]
      exact ⟨(unpackLargeReqStr_excl _ tbl false hinv).1,
        fun req err h => absurd h ((unpackLargeReqStr_excl _ tbl false hinv).2 req err)⟩
    by_cases hc1 : t = 0xc1
    · have hd : DecodeReq (t :: rest) tbl = unpackLargeReqStr rest tbl true := by
        simp [DecodeReq, ReadByte, hc1]
      rw [hd]
      exact ⟨(unpackLargeReqStr_excl _ tbl true hinv).1,
        fun req err h => absurd h ((unpackLargeReqStr_excl _ tbl true hinv).2 req err)⟩
    have hd : ∃ e, DecodeReq (t :: rest) tbl = (.value none (some e), tbl) := by
      by_cases h4 : t = 4
      · exact ⟨.nonsupportTrace, by simp [DecodeReq, ReadByte, h4]⟩
      · exact ⟨.invalidReqType t,
          by simp [DecodeReq, ReadByte, h0, h1, h2, h3, h4, h41, h80, h81, hc1]⟩
    obtain ⟨e, he⟩ := hd
    rw [he]
    exact ⟨hinv, by intro req err h; cases h⟩

theorem feed_excl : ∀ (pkts : List Reader) (tbl : Table), tbl.Exclusive →
    (feed tbl pkts).Exclusive := by
  intro pkts
  induction pkts with
  | nil => intro tbl h; exact h
  | cons pkg rest ih => intro tbl h; exact ih _ (DecodeReq_excl pkg tbl h).1

/-- C14: if every entry of the table has `Id = 0` or an empty `Name`, then after
`DecodeReq` on any packet every entry still has, and a request it returns (with or
without an error) has `Id = 0` or an empty `Name`.  The same holds after any sequence
of packets; so a decoder started on the empty table never yields a request with both
`Id` other than 0 and a non-empty `Name`. -/
theorem C14_address_exclusive (tbl : Table) (pkts : List Reader) (pkg : Reader)
    (hinv : ∀ (k : Nat) (r : ReqPack), tbl k = some r → r.Addr.Id = 0 ∨ r.Addr.Name = []) :
    (∀ (k : Nat) (r : ReqPack), (DecodeReq pkg tbl).2 k = some r
        → r.Addr.Id = 0 ∨ r.Addr.Name = []) ∧
    (∀ req err, (DecodeReq pkg tbl).1 = .value (some req) err
        → req.Addr.Id = 0 ∨ req.Addr.Name = []) ∧
    (∀ req err, (DecodeReq pkg (feed tbl pkts)).1 = .value (some req) err
        → ¬ (req.Addr.Id ≠ 0 ∧ req.Addr.Name ≠ [])) ∧
    (∀ req err, (DecodeReq pkg (feed Table.empty pkts)).1 = .value (some req) err
        → ¬ (req.Addr.Id ≠ 0 ∧ req.Addr.Name ≠ [])) := by
  have hempty : Table.empty.Exclusive := by
    intro k r h; cases h
  refine ⟨(DecodeReq_excl pkg tbl hinv).1, (DecodeReq_excl pkg tbl hinv).2, ?_, ?_⟩
  · intro req err h ⟨h1, h2⟩
    rcases (DecodeReq_excl pkg _ (feed_excl pkts tbl hinv)).2 req err h with h0 | h0
    · exact h1 h0
    · exact h2 h0
  · intro req err h ⟨h1, h2⟩
    rcases (DecodeReq_excl pkg _ (feed_excl pkts Table.empty hempty)).2 req err h with h0 | h0
    · exact h1 h0
    · exact h2 h0

/-- Witness of C14: the empty table, no earlier packets, and the name-address head
`81 | 2 "db" | session 1 | size 8`. -/
theorem C14_address_exclusive_witness :
    (∀ (k : Nat) (r : ReqPack),
        (DecodeReq [0x81, 2, 0x64, 0x62, 1, 0, 0, 0, 8, 0, 0, 0] Table.empty).2 k = some r
        → r.Addr.Id = 0 ∨ r.Addr.Name = []) ∧
    (∀ req err,
        (DecodeReq [0x81, 2, 0x64, 0x62, 1, 0, 0, 0, 8, 0, 0, 0] Table.empty).1
          = .value (some req) err
        → req.Addr.Id = 0 ∨ req.Addr.Name = []) ∧
    (∀ req err,
        (DecodeReq [0x81, 2, 0x64, 0x62, 1, 0, 0, 0, 8, 0, 0, 0] (feed Table.empty [])).1
          = .value (some req) err
        → ¬ (req.Addr.Id ≠ 0 ∧ req.Addr.Name ≠ [])) ∧
    (∀ req err,
        (DecodeReq [0x81, 2, 0x64, 0x62, 1, 0, 0, 0, 8, 0, 0, 0] (feed Table.empty [])).1
          = .value (some req) err
        → ¬ (req.Addr.Id ≠ 0 ∧ req.Addr.Name ≠ [])) :=
  C14_address_exclusive Table.empty [] [0x81, 2, 0x64, 0x62, 1, 0, 0, 0, 8, 0, 0, 0]
    (by intro k r h; cases h)

/-! ## Closing an agent whose callers all wait -/

/-- When a caller is blocked on the channel of every entry the loop visits (no
registered call has been answered, has timed out or has failed to encode), the
deferred loop of `WaitResponse` delivers one "socket close" response per entry and
does not block. -/
theorem closeLoop_all_waiting :
    ∀ (entries : List (Nat × Nat)) (receivers : List Nat),
      (∀ e ∈ entries, e.2 ∈ receivers) → (entries.map Prod.snd).Nodup →
      closeLoop entries receivers
        = { delivered := entries.map (fun e => socketClose e.1), blockedOn := none } := by
  intro entries
  induction entries with
  | nil => intro receivers _ _; rfl
  | cons e rest ih =>
    intro receivers hall hnd
    obtain ⟨session, ch⟩ := e
    have hch : ch ∈ receivers := hall (session, ch) (List.mem_cons_self _ _)
    rw [List.map_cons, List.nodup_cons] at hnd
    have hrest : ∀ e ∈ rest, e.2 ∈ receivers.erase ch := by
      intro e he
      have hne : e.2 ≠ ch := by
        intro heq
        have hm : e.2 ∈ rest.map Prod.snd := List.mem_map_of_mem Prod.snd he
        rw [heq] at hm
        exact hnd.1 hm
      exact (List.mem_erase_of_ne hne).mpr (hall e (List.mem_cons_of_mem _ he))
    simp only [closeLoop, hch, if_true, ih (receivers.erase ch) hrest hnd.2, List.map_cons]

/-! ## Run-time panics of the decoder -/

/-- C21 (evaluation at the failing inputs).  After the head `01 | addr 7 | session 42 |
size 8` on the empty table, `DecodeReq` ends in a run-time panic on each of these tail
packets for session 42: one with no chunk (the buffer is empty and `args[0]` is out of
range), one with the chunk `0c 61 04` (one string is decoded and `args[1]` is out of
range), one with the chunk `24 70 69 6e 67` and one with the chunk `15 01 00 61` (the
declared length reaches the end of the buffer and `data[end:]` is out of range).  It
also panics on the name-address heads `81 02 64 62 01 00 00 00 08 00 00` and
`c1 00 01 00 00 00 08 00 00`, which pass the size check with one byte missing, so that
the size field is read from a nil slice. -/
theorem C21_DecodeReq_panics :
    (DecodeReq [3, 42, 0, 0, 0]
        (DecodeReq [1, 7, 0, 0, 0, 42, 0, 0, 0, 8, 0, 0, 0] Table.empty).2).1 = .panic ∧
    (DecodeReq [3, 42, 0, 0, 0, 0x0c, 0x61, 0x04]
        (DecodeReq [1, 7, 0, 0, 0, 42, 0, 0, 0, 8, 0, 0, 0] Table.empty).2).1 = .panic ∧
    (DecodeReq [3, 42, 0, 0, 0, 0x24, 0x70, 0x69, 0x6e, 0x67]
        (DecodeReq [1, 7, 0, 0, 0, 42, 0, 0, 0, 8, 0, 0, 0] Table.empty).2).1 = .panic ∧
    (DecodeReq [3, 42, 0, 0, 0, 0x15, 0x01, 0x00, 0x61]
        (DecodeReq [1, 7, 0, 0, 0, 42, 0, 0, 0, 8, 0, 0, 0] Table.empty).2).1 = .panic ∧
    (DecodeReq [0x81, 2, 0x64, 0x62, 1, 0, 0, 0, 8, 0, 0] Table.empty).1 = .panic ∧
    (DecodeReq [0xc1, 0, 1, 0, 0, 0, 8, 0, 0] Table.empty).1 = .panic := by
  refine ⟨?_, ?_, ?_, ?_, ?_, ?_⟩ <;> decide

/-! ## Where the decoder cannot panic -/

theorem ReadBinary_ok_length (pkg a r : Bytes) (n : Nat) (hn : 0 < n)
    (h : ReadBinary pkg n = .ok (a, r)) : a.length = n := by
  unfold ReadBinary at h
  have h0 : ¬ n ≤ 0 := by omega
  simp only [h0, if_false] at h
  split at h
  · cases h
  · cases h
    rw [List.length_take]
    omega

theorem Uint32LE_ne_none (l : Bytes) (h : l.length = 4) : Uint32LE l ≠ none := by
  match l, h with
  | [_, _, _, _], _ => simp [Uint32LE]

theorem Uint32BE_ne_none (l : Bytes) (h : l.length = 4) : Uint32BE l ≠ none := by
  match l, h with
  | [_, _, _, _], _ => simp [Uint32BE]

theorem unpackReqNumber_ne_panic (pkg : Reader) : unpackReqNumber pkg ≠ .panic := by
  intro h
  unfold unpackReqNumber at h
  simp only [] at h
  split at h
  · cases h
  · split at h
    · cases h
    · rename_i b1 r1 h1
      have hb1 := Uint32LE_ne_none b1 (ReadBinary_ok_length _ _ _ 4 (by decide) h1)
      split at h
      · rename_i hnone; exact hb1 hnone
      · split at h
        · cases h
        · rename_i b2 r2 h2
          have hb2 := Uint32LE_ne_none b2 (ReadBinary_ok_length _ _ _ 4 (by decide) h2)
          split at h
          · rename_i hnone; exact hb2 hnone
          · repeat' split at h
            all_goals cases h

theorem unpackReqStr_ne_panic (pkg : Reader) : unpackReqStr pkg ≠ .panic := by
  intro h
  unfold unpackReqStr at h
  simp only [] at h
  split at h
  · cases h
  · split at h
    · cases h
    · split at h
      · cases h
      · split at h
        · cases h
        · split at h
          · cases h
          · rename_i b2 r2 h2
            have hb2 := Uint32BE_ne_none b2 (ReadBinary_ok_length _ _ _ 4 (by decide) h2)
            split at h
            · rename_i hnone; exact hb2 hnone
            · repeat' split at h
              all_goals cases h

theorem unpackLargeReqNumber_ne_panic (pkg : Reader) (tbl : Table) (push : Bool) :
    (unpackLargeReqNumber pkg tbl push).1 ≠ .panic := by
  by_cases hl : pkg.length = 12
  · match pkg, hl with
    | [_, _, _, _, _, _, _, _, _, _, _, _], _ =>
      simp [unpackLargeReqNumber, ReadBinaryIgn_four, Uint32LE]
  · simp [unpackLargeReqNumber, hl]

theorem unpackLargeReqPart_body_ne_panic (pkg : Reader) (tbl : Table) :
    (unpackLargeReqPart pkg tbl false).1 ≠ .panic := by
  by_cases hl : pkg.length < 4
  · simp [unpackLargeReqPart, hl]
  · match pkg, hl with
    | b0 :: b1 :: b2 :: b3 :: rest, _ =>
      have hlen : ¬ (rest.length + 1 + 1 + 1 + 1 < 4) := by omega
      simp only [unpackLargeReqPart, List.length_cons, hlen, if_false, ReadBinaryIgn_four,
        Uint32LE]
      split <;> simp
    | [], hl => simp at hl
    | [_], hl => simp at hl
    | [_, _], hl => simp at hl
    | [_, _, _], hl => simp at hl

/-- `DecodeReq` can end in a run-time panic only on a tail packet (tag `0x03`) and on
a name-address multipart head (tags `0x81`, `0xC1`): on every other packet it returns
a request, "no packet yet" or an error. -/
theorem DecodeReq_panic_tags (pkg : Reader) (tbl : Table)
    (h : (DecodeReq pkg tbl).1 = .panic) :
    ∃ rest, pkg = 3 :: rest ∨ pkg = 0x81 :: rest ∨ pkg = 0xc1 :: rest := by
  cases pkg with
  | nil =>
    have hd : DecodeReq [] tbl = (.value none (some .invalidPackageSize0), tbl) := rfl
    rw [hd] at h
    cases h
  | cons t rest =>
    refine ⟨rest, ?_⟩
    by_cases h3 : t = 3
    · exact Or.inl (by rw [h3])
    by_cases h81 : t = 0x81
    · exact Or.inr (Or.inl (by rw [h81]))
    by_cases hc1 : t = 0xc1
    · exact Or.inr (Or.inr (by rw [hc1]))
    exfalso
    by_cases h0 : t = 0
    · have hd : DecodeReq (t :: rest) tbl = (unpackReqNumber rest, tbl) := by
        simp [DecodeReq, ReadByte, h0]
      rw [hd] at h
      exact unpackReqNumber_ne_panic rest h
    by_cases h1 : t = 1
    · have hd : DecodeReq (t :: rest) tbl = unpackLargeReqNumber rest tbl false := by
        simp [DecodeReq, ReadByte, h1]
      rw [hd] at h
      exact unpackLargeReqNumber_ne_panic rest tbl false h
    by_cases h41 : t = 0x41
    · have hd : DecodeReq (t :: rest) tbl = unpackLargeReqNumber rest tbl true := by
        simp [DecodeReq, ReadByte, h41]
      rw [hd] at h
      exact unpackLargeReqNumber_ne_panic rest tbl true h
    by_cases h2 : t = 2
    · have hd : DecodeReq (t :: rest) tbl = unpackLargeReqPart rest tbl false := by
        simp [DecodeReq, ReadByte, h2]
      rw [hd] at h
      exact unpackLargeReqPart_body_ne_panic rest tbl h
    by_cases h80 : t = 0x80
    · have hd : DecodeReq (t :: rest) tbl = (unpackReqStr rest, tbl) := by
        simp [DecodeReq, ReadByte, h80]
      rw [hd] at h
      exact unpackReqStr_ne_panic rest h
    have hd : ∃ e, DecodeReq (t :: rest) tbl = (.value none (some e), tbl) := by
      by_cases h4 : t = 4
      · exact ⟨.nonsupportTrace, by simp [DecodeReq, ReadByte, h4]⟩
      · exact ⟨.invalidReqType t,
          by simp [DecodeReq, ReadByte, h0, h1, h2, h3, h4, h41, h80, h81, hc1]⟩
    obtain ⟨e, he⟩ := hd
    rw [he] at h
    cases h

end SkynetCluster
